import Mathlib

/-!
# Verification of the time-slot scheduling engine of `virtual_assistant.py`

This file is a shallow embedding, in Lean 4, of the scheduling core of the
repository's `virtual_assistant.py`, together with theorems settling the
specification claims about it.

Modelling conventions:
* Times (`datetime` values in the source) are modelled as minutes counted from
  an arbitrary origin, as `Int`.  Timezone localisation (`pytz` plumbing,
  `ensure_datetime`, `localize`, `astimezone`) is the identity under this
  model, since the source converts everything into the single canonical
  timezone `Europe/London` before comparing.
* A Python `(start_time, end_time)` tuple is an `Int × Int` pair.
* Python dictionaries that are iterated in insertion order are modelled as
  association lists (`List (key × value)`), preserving order.
* Python floats in the scorer are modelled as exact rationals (`ℚ`); the one
  float-specific behaviour the scorer relies on (`1/(inf+1) == 0.0`) is
  modelled by its exact value, with a comment at the place it occurs.
* `datetime.timedelta.days` is floor division by `1440` minutes (`Int.fdiv`),
  matching Python's floor semantics for negative timedeltas.
-/

/-- A half-open time range `[start, end)` in minutes, as in the source's
`(start_time, end_time)` tuples. -/
abbrev TimeRange : Type := Int × Int

namespace VirtualAssistant

/-! ## Interval algebra: `merge_overlapping_intervals` (source lines 1299–1324)

The Python code is

    if not intervals: return []
    intervals.sort(key=lambda x: x[0])
    merged_intervals = [intervals[0]]
    for current in intervals[1:]:
        prev_start, prev_end = merged_intervals[-1]
        curr_start, curr_end = current
        if curr_start <= prev_end:
            merged_intervals[-1] = (prev_start, max(prev_end, curr_end))
        else:
            merged_intervals.append(current)
    return merged_intervals

`list.sort(key=lambda x: x[0])` is a stable sort on the first component; we
model it by a stable insertion sort on the first component.  The loop is a left
fold whose accumulator is the merged list kept in reverse order (the Python
code appends and mutates the last element; keeping the list reversed makes the
"last" element the head).  Starting the fold from `[]` with
`mergeStep [] c = [c]` is the same as starting from `[intervals[0]]` with the
tail, and also covers the `if not intervals` early return. -/

/-- Stable insertion (by start time) of one interval into a sorted list:
an element is placed before the first element with a strictly larger start,
and after existing elements with an equal start, which is exactly the
placement a stable sort gives. -/
def insertByStart (x : TimeRange) : List TimeRange → List TimeRange
  | [] => [x]
  | y :: ys => if x.1 ≤ y.1 then x :: y :: ys else y :: insertByStart x ys

/-- `intervals.sort(key=lambda x: x[0])`: stable sort by start time. -/
def sortByStart (l : List TimeRange) : List TimeRange :=
  l.foldr insertByStart []

/-- One iteration of the merging loop: the accumulator is the merged list in
reverse order, so its head is the Python list's last element. -/
def mergeStep (acc : List TimeRange) (current : TimeRange) : List TimeRange :=
  match acc with
  | [] => [current]
  | (prevStart, prevEnd) :: rest =>
      if current.1 ≤ prevEnd then
        (prevStart, max prevEnd current.2) :: rest
      else
        current :: (prevStart, prevEnd) :: rest

/-- `merge_overlapping_intervals` (source lines 1299–1324). -/
def mergeOverlappingIntervals (intervals : List TimeRange) : List TimeRange :=
  (List.foldl mergeStep [] (sortByStart intervals)).reverse

/-! ### Lemmas about `sortByStart` -/

theorem insertByStart_perm (x : TimeRange) (l : List TimeRange) :
    (insertByStart x l).Perm (x :: l) := by
  induction l with
  | nil => exact List.Perm.refl _
  | cons y ys ih =>
      by_cases h : x.1 ≤ y.1
      · simp [insertByStart, h]
      · simp only [insertByStart, h, if_false]
        exact ((ih.cons y).trans (List.Perm.swap x y ys))

theorem sortByStart_perm (l : List TimeRange) : (sortByStart l).Perm l := by
  induction l with
  | nil => exact List.Perm.refl _
  | cons x xs ih => exact (insertByStart_perm x (sortByStart xs)).trans (ih.cons x)

theorem insertByStart_pairwise (x : TimeRange) (l : List TimeRange)
    (h : l.Pairwise (fun a b : TimeRange => a.1 ≤ b.1)) :
    (insertByStart x l).Pairwise (fun a b : TimeRange => a.1 ≤ b.1) := by
  induction l with
  | nil => simp [insertByStart]
  | cons y ys ih =>
      rcases List.pairwise_cons.mp h with ⟨hy, hys⟩
      by_cases hxy : x.1 ≤ y.1
      · simp only [insertByStart, if_pos hxy]
        refine List.pairwise_cons.mpr ⟨?_, h⟩
        intro b hb
        rcases List.mem_cons.mp hb with rfl | hb
        · exact hxy
        · exact le_trans hxy (hy b hb)
      · simp only [insertByStart, if_neg hxy]
        refine List.pairwise_cons.mpr ⟨?_, ih hys⟩
        intro b hb
        rcases List.mem_cons.mp ((insertByStart_perm x ys).mem_iff.mp hb) with rfl | hb'
        · exact le_of_lt (lt_of_not_le hxy)
        · exact hy b hb'

theorem sortByStart_pairwise (l : List TimeRange) :
    (sortByStart l).Pairwise (fun a b : TimeRange => a.1 ≤ b.1) := by
  induction l with
  | nil => simp [sortByStart]
  | cons x xs ih => exact insertByStart_pairwise x (sortByStart xs) ih

theorem sortByStart_of_pairwise (l : List TimeRange)
    (h : l.Pairwise (fun a b : TimeRange => a.1 ≤ b.1)) : sortByStart l = l := by
  induction l with
  | nil => rfl
  | cons x xs ih =>
      rcases List.pairwise_cons.mp h with ⟨hx, hxs⟩
      have : sortByStart (x :: xs) = insertByStart x (sortByStart xs) := rfl
      rw [this, ih hxs]
      cases xs with
      | nil => rfl
      | cons y ys => simp [insertByStart, hx y (List.mem_cons_self y ys)]

/-! ### Shape of the merge loop's output -/

/-- Invariant of the merging fold: if the remaining input is sorted by start,
every accumulator element starts no later than every remaining input element,
the accumulator is reverse-sorted by start, and adjacent accumulator elements
are separated by a gap, then all of this still holds of the final accumulator. -/
theorem foldl_mergeStep_inv (s : List TimeRange) :
    ∀ acc : List TimeRange,
      s.Pairwise (fun a b : TimeRange => a.1 ≤ b.1) →
      (∀ a ∈ acc, ∀ c ∈ s, a.1 ≤ c.1) →
      acc.Pairwise (fun a b : TimeRange => b.1 ≤ a.1) →
      acc.Chain' (fun a b : TimeRange => b.2 < a.1) →
      (List.foldl mergeStep acc s).Pairwise (fun a b : TimeRange => b.1 ≤ a.1) ∧
        (List.foldl mergeStep acc s).Chain' (fun a b : TimeRange => b.2 < a.1) := by
  induction s with
  | nil => intro acc _ _ hS hG; exact ⟨hS, hG⟩
  | cons c cs ih =>
      intro acc hs hcross hS hG
      rcases List.pairwise_cons.mp hs with ⟨hc, hcs⟩
      rw [List.foldl_cons]
      match acc, hS, hG with
      | [], _, _ =>
          refine ih [c] hcs ?_ (by simp) (by simp)
          intro a ha d hd
          rcases List.mem_singleton.mp ha with rfl
          exact hc d hd
      | (ps, pe) :: rest, hS, hG =>
          by_cases hmerge : c.1 ≤ pe
          · simp only [mergeStep, if_pos hmerge]
            refine ih _ hcs ?_ ?_ ?_
            · intro a ha d hd
              rcases List.mem_cons.mp ha with rfl | ha
              · exact hcross (ps, pe) (List.mem_cons_self _ _) d (List.mem_cons_of_mem c hd)
              · exact hcross a (List.mem_cons_of_mem _ ha) d (List.mem_cons_of_mem c hd)
            · rcases List.pairwise_cons.mp hS with ⟨h1, h2⟩
              exact List.pairwise_cons.mpr ⟨h1, h2⟩
            · cases rest with
              | nil => simp
              | cons r rs =>
                  rcases hG with _ | ⟨hr, hG'⟩
                  exact List.Chain'.cons hr hG'
          · simp only [mergeStep, if_neg hmerge]
            refine ih _ hcs ?_ ?_ ?_
            · intro a ha d hd
              rcases List.mem_cons.mp ha with rfl | ha
              · exact hc d hd
              · exact hcross a ha d (List.mem_cons_of_mem c hd)
            · refine List.pairwise_cons.mpr ⟨?_, hS⟩
              intro b hb
              exact hcross b hb c (List.mem_cons_self c cs)
            · exact List.Chain'.cons (lt_of_not_le hmerge) hG

/-- The output of `merge_overlapping_intervals` is sorted by start and leaves a
strict gap between consecutive intervals (the next start is strictly after the
previous end). -/
theorem mergeOverlappingIntervals_shape (l : List TimeRange) :
    (mergeOverlappingIntervals l).Pairwise (fun a b : TimeRange => a.1 ≤ b.1) ∧
      (mergeOverlappingIntervals l).Chain' (fun a b : TimeRange => a.2 < b.1) := by
  have h := foldl_mergeStep_inv (sortByStart l) [] (sortByStart_pairwise l)
    (by intro a ha; cases ha) (by simp) (by simp)
  constructor
  · rw [mergeOverlappingIntervals, List.pairwise_reverse]
    exact h.1
  · rw [mergeOverlappingIntervals, List.chain'_reverse]
    exact h.2

/-- Folding the merge loop over a list whose consecutive elements already have
gaps performs no merging: it just reverses the list into the accumulator. -/
theorem foldl_mergeStep_of_gaps (l : List TimeRange) :
    ∀ (x : TimeRange) (acc : List TimeRange),
      (x :: l).Chain' (fun a b : TimeRange => a.2 < b.1) →
      List.foldl mergeStep (x :: acc) l = l.reverse ++ x :: acc := by
  induction l with
  | nil => intro x acc _; rfl
  | cons c cs ih =>
      intro x acc h
      rcases h with _ | ⟨hxc, h'⟩
      rw [List.foldl_cons]
      have hstep : mergeStep (x :: acc) c = c :: x :: acc := by
        cases x with
        | mk xs xe => simp only [mergeStep, if_neg (not_le_of_lt hxc)]
      rw [hstep, ih c (x :: acc) h']
      simp

theorem mergeOverlappingIntervals_idem (l : List TimeRange) :
    mergeOverlappingIntervals (mergeOverlappingIntervals l) =
      mergeOverlappingIntervals l := by
  obtain ⟨hsorted, hgap⟩ := mergeOverlappingIntervals_shape l
  set M := mergeOverlappingIntervals l with hM
  have hsortM : sortByStart M = M := sortByStart_of_pairwise M hsorted
  rw [mergeOverlappingIntervals, hsortM]
  cases hMc : M with
  | nil => rfl
  | cons x xs =>
      have : List.foldl mergeStep [] (x :: xs) = List.foldl mergeStep [x] xs := by
        rw [List.foldl_cons]; rfl
      rw [this, foldl_mergeStep_of_gaps xs x [] (hMc ▸ hgap)]
      simp

/-! ### The merge result only depends on the multiset of (well-formed) inputs

Python's stable sort lets intervals with equal starts appear in either input
order; when every interval is a genuine time range (`start ≤ end`) such
equal-start intervals always merge with each other, commutatively in their
ends, so the final result does not depend on the input order.  (For a
degenerate pair with `end < start` this fails, e.g.
`merge [(0,-10),(0,5)] = [(0,-10),(0,5)]` but `merge [(0,5),(0,-10)] = [(0,5)]`;
such pairs are not time ranges.) -/

theorem mergeStep_comm (acc : List TimeRange) (x y : TimeRange)
    (hxy : x.1 = y.1) (hx : x.1 ≤ x.2) (hy : y.1 ≤ y.2) :
    mergeStep (mergeStep acc x) y = mergeStep (mergeStep acc y) x := by
  match acc with
  | [] =>
      simp only [mergeStep]
      rw [if_pos (hxy ▸ hx), if_pos (hxy.symm ▸ hy)]
      simp [hxy, max_comm]
  | (ps, pe) :: rest =>
      by_cases hmx : x.1 ≤ pe
      · have hmy : y.1 ≤ pe := hxy ▸ hmx
        simp only [mergeStep, if_pos hmx, if_pos hmy,
          if_pos (le_trans hmy (le_max_left pe x.2)),
          if_pos (le_trans hmx (le_max_left pe y.2))]
        simp [max_assoc, max_comm, max_left_comm]
      · have hmy : ¬ y.1 ≤ pe := hxy ▸ hmx
        simp only [mergeStep, if_neg hmx, if_neg hmy]
        have h1 : y.1 ≤ x.2 := hxy.symm ▸ hx
        have h2 : x.1 ≤ y.2 := hxy ▸ hy
        cases x with
        | mk x1 x2 =>
            cases y with
            | mk y1 y2 =>
                simp only [mergeStep, if_pos h1, if_pos h2]
                simp only at hxy
                simp [hxy, max_comm]

/-- Removal of the first occurrence of an element (Python `list.remove`
semantics), used only in the proofs below to reason about permutations of
sorted lists. -/
def removeFirst (a : TimeRange) : List TimeRange → List TimeRange
  | [] => []
  | b :: t => if b = a then t else b :: removeFirst a t

theorem removeFirst_perm (a : TimeRange) (s : List TimeRange) (ha : a ∈ s) :
    s.Perm (a :: removeFirst a s) := by
  induction s with
  | nil => cases ha
  | cons b t ih =>
      by_cases hba : b = a
      · subst hba
        simp [removeFirst]
      · have hat : a ∈ t := by
          rcases List.mem_cons.mp ha with rfl | h
          · exact absurd rfl hba
          · exact h
        simp only [removeFirst, if_neg hba]
        exact ((ih hat).cons b).trans (List.Perm.swap a b (removeFirst a t))

theorem removeFirst_sublist (a : TimeRange) (s : List TimeRange) :
    (removeFirst a s).Sublist s := by
  induction s with
  | nil => simp [removeFirst]
  | cons b t ih =>
      by_cases hba : b = a
      · simp only [removeFirst, if_pos hba]
        exact t.sublist_cons_self b
      · simp only [removeFirst, if_neg hba]
        exact ih.cons₂ b

/-- An element with minimal start in a start-sorted list of well-formed
intervals can be moved to the front without changing the merge fold. -/
theorem foldl_mergeStep_moveFront (s : List TimeRange) :
    ∀ (a : TimeRange) (acc : List TimeRange),
      s.Pairwise (fun u v : TimeRange => u.1 ≤ v.1) →
      (∀ i ∈ s, i.1 ≤ i.2) →
      a ∈ s →
      (∀ i ∈ s, a.1 ≤ i.1) →
      List.foldl mergeStep acc s = List.foldl mergeStep acc (a :: removeFirst a s) := by
  induction s with
  | nil => intro a acc _ _ ha _; cases ha
  | cons b t ih =>
      intro a acc hs hwf ha hmin
      by_cases hba : b = a
      · subst hba
        simp [removeFirst]
      · have hat : a ∈ t := by
          rcases List.mem_cons.mp ha with rfl | h
          · exact absurd rfl hba
          · exact h
        rcases List.pairwise_cons.mp hs with ⟨hb, ht⟩
        have hfst : b.1 = a.1 :=
          le_antisymm (hb a hat) (hmin b (List.mem_cons_self b t))
        simp only [removeFirst, if_neg hba]
        rw [List.foldl_cons, ih a (mergeStep acc b) ht
          (fun i hi => hwf i (List.mem_cons_of_mem b hi)) hat
          (fun i hi => hmin i (List.mem_cons_of_mem b hi))]
        rw [List.foldl_cons, List.foldl_cons, List.foldl_cons]
        rw [mergeStep_comm acc b a hfst
          (hwf b (List.mem_cons_self b t)) (hwf a ha)]

/-- Two start-sorted lists of well-formed intervals that are permutations of
each other produce the same merge fold. -/
theorem foldl_mergeStep_perm (s₁ : List TimeRange) :
    ∀ (s₂ acc : List TimeRange),
      s₁.Perm s₂ →
      s₁.Pairwise (fun u v : TimeRange => u.1 ≤ v.1) →
      s₂.Pairwise (fun u v : TimeRange => u.1 ≤ v.1) →
      (∀ i ∈ s₁, i.1 ≤ i.2) →
      List.foldl mergeStep acc s₁ = List.foldl mergeStep acc s₂ := by
  induction s₁ with
  | nil => intro s₂ acc hp _ _ _; rw [hp.nil_eq]
  | cons a t₁ ih =>
      intro s₂ acc hp hs₁ hs₂ hwf
      have ha₂ : a ∈ s₂ := hp.mem_iff.mp (List.mem_cons_self a t₁)
      have hmin : ∀ i ∈ s₂, a.1 ≤ i.1 := by
        intro i hi
        rcases List.mem_cons.mp (hp.symm.mem_iff.mp hi) with rfl | hit
        · exact le_refl _
        · exact (List.pairwise_cons.mp hs₁).1 i hit
      have hwf₂ : ∀ i ∈ s₂, i.1 ≤ i.2 := fun i hi => hwf i (hp.symm.mem_iff.mp hi)
      rw [foldl_mergeStep_moveFront s₂ a acc hs₂ hwf₂ ha₂ hmin]
      rw [List.foldl_cons, List.foldl_cons]
      have hperm : t₁.Perm (removeFirst a s₂) := by
        have h1 : (a :: t₁).Perm (a :: removeFirst a s₂) :=
          hp.trans (removeFirst_perm a s₂ ha₂)
        exact (List.perm_cons a).mp h1
      refine ih (removeFirst a s₂) (mergeStep acc a) hperm
        ((List.pairwise_cons.mp hs₁).2)
        (List.Pairwise.sublist (removeFirst_sublist a s₂) hs₂)
        (fun i hi => hwf i (List.mem_cons_of_mem a hi))

/-- Merging does not depend on the order of well-formed input intervals. -/
theorem mergeOverlappingIntervals_perm (l l' : List TimeRange)
    (hp : l.Perm l') (hwf : ∀ i ∈ l, i.1 ≤ i.2) :
    mergeOverlappingIntervals l = mergeOverlappingIntervals l' := by
  rw [mergeOverlappingIntervals, mergeOverlappingIntervals]
  congr 1
  refine foldl_mergeStep_perm (sortByStart l) (sortByStart l') []
    ?_ (sortByStart_pairwise l) (sortByStart_pairwise l') ?_
  · exact ((sortByStart_perm l).trans hp).trans (sortByStart_perm l').symm
  · exact fun i hi => hwf i ((sortByStart_perm l).mem_iff.mp hi)

theorem merge_pair_separated (A B : TimeRange) (hA : A.1 ≤ A.2) (hAB : A.2 < B.1) :
    mergeOverlappingIntervals [A, B] = [A, B] ∧
      mergeOverlappingIntervals [B, A] = [A, B] := by
  have hAB1 : A.1 ≤ B.1 := le_trans hA (le_of_lt hAB)
  have hBA1 : ¬ B.1 ≤ A.1 := not_le_of_lt (lt_of_le_of_lt hA hAB)
  constructor
  · simp only [mergeOverlappingIntervals, sortByStart, List.foldr, insertByStart,
      if_pos hAB1, List.foldl, mergeStep, if_neg (not_le_of_lt hAB)]
    rfl
  · simp only [mergeOverlappingIntervals, sortByStart, List.foldr, insertByStart,
      if_neg hBA1, List.foldl, mergeStep, if_neg (not_le_of_lt hAB)]
    rfl

theorem merge_pair_touching (A B : TimeRange) (hAB : A.1 ≤ B.1) (hBA : B.1 ≤ A.2) :
    mergeOverlappingIntervals [A, B] = [(A.1, max A.2 B.2)] := by
  simp only [mergeOverlappingIntervals, sortByStart, List.foldr, insertByStart,
    if_pos hAB, List.foldl, mergeStep, if_pos hBA]
  rfl

/-- **C5.** `merge_overlapping_intervals` is idempotent; its result does not
depend on the order of the input time ranges (intervals with `start ≤ end`);
merging an empty list yields an empty list; for two non-overlapping intervals
`A`, `B` (in start order, with a gap `A.end < B.start`) it returns `[A, B]` in
start order whichever order they are given in; and whenever `B.start ≤ A.end`
(adjacency counting as overlap) it returns the single interval
`(A.start, max(A.end, B.end))` spanning both. -/
theorem C5_merge_contracts :
    (∀ l : List TimeRange,
        mergeOverlappingIntervals (mergeOverlappingIntervals l) =
          mergeOverlappingIntervals l) ∧
      (∀ l l' : List TimeRange, l.Perm l' → (∀ i ∈ l, i.1 ≤ i.2) →
        mergeOverlappingIntervals l = mergeOverlappingIntervals l') ∧
      mergeOverlappingIntervals [] = [] ∧
      (∀ A B : TimeRange, A.1 ≤ A.2 → A.2 < B.1 →
        mergeOverlappingIntervals [A, B] = [A, B] ∧
          mergeOverlappingIntervals [B, A] = [A, B]) ∧
      (∀ A B : TimeRange, A.1 ≤ B.1 → B.1 ≤ A.2 →
        mergeOverlappingIntervals [A, B] = [(A.1, max A.2 B.2)]) :=
  ⟨mergeOverlappingIntervals_idem, mergeOverlappingIntervals_perm, rfl,
    merge_pair_separated, merge_pair_touching⟩

/-- Witness for C5 at concrete inputs, discharging each hypothesis. -/
theorem C5_merge_contracts_witness :
    (List.Perm [((0:Int), (10:Int)), ((5:Int), (20:Int))]
        [((5:Int), (20:Int)), ((0:Int), (10:Int))] ∧
      mergeOverlappingIntervals [((0:Int), (10:Int)), ((5:Int), (20:Int))] =
        mergeOverlappingIntervals [((5:Int), (20:Int)), ((0:Int), (10:Int))]) ∧
      mergeOverlappingIntervals [((1:Int), (3:Int)), ((4:Int), (6:Int))] =
        [((1:Int), (3:Int)), ((4:Int), (6:Int))] ∧
      mergeOverlappingIntervals [((1:Int), (3:Int)), ((3:Int), (6:Int))] =
        [((1:Int), (6:Int))] := by
  refine ⟨⟨List.Perm.swap _ _ _, ?_⟩, ?_, ?_⟩
  · exact C5_merge_contracts.2.1 _ _ (List.Perm.swap _ _ _) (by decide)
  · exact (C5_merge_contracts.2.2.2.1 (1, 3) (4, 6) (by decide) (by decide)).1
  · have h := C5_merge_contracts.2.2.2.2 (1, 3) (3, 6) (by decide) (by decide)
    simpa using h

/-! ## Slot Resolver: `get_available_timeslots` (source lines 963–1059)

One entry of the energy profile (`energy_profile[date]` is a list of these;
source lines 495–499 build them). -/

structure EnergySlot where
  timeRange : TimeRange
  taskType : String
  energyLevel : String
deriving Repr, DecidableEq

/-- Python's `str.lower()` for the ASCII labels this program uses. -/
def lowerChar (c : Char) : Char :=
  if 65 ≤ c.toNat ∧ c.toNat ≤ 90 then Char.ofNat (c.toNat + 32) else c

/-- Python's `str.lower()` for the ASCII labels this program uses. -/
def pyLower (s : String) : String := String.mk (s.data.map lowerChar)

/-- `convert_energy_level_to_int` (source lines 958–961):
`{'low': 1, 'medium': 2, 'high': 3}.get(energy_level.lower(), 0)`. -/
def convertEnergyLevelToInt (energyLevel : String) : Int :=
  if pyLower energyLevel = "low" then 1
  else if pyLower energyLevel = "medium" then 2
  else if pyLower energyLevel = "high" then 3
  else 0

/-- One pass of the occupied-subtraction loop (source lines 1010–1021): one
occupied interval is subtracted from each currently free part.  The source's
`if/elif` chain keeps at most one piece per free part; in particular an
occupied interval strictly inside a free part keeps only the left piece. -/
def subtractPass (parts : List TimeRange) (occ : TimeRange) : List TimeRange :=
  parts.flatMap fun fp =>
    if fp.1 ≥ occ.1 ∧ fp.2 ≤ occ.2 then []
    else if fp.1 < occ.1 ∧ occ.1 < fp.2 then [(fp.1, occ.1)]
    else if fp.1 < occ.2 ∧ occ.2 < fp.2 then [(occ.2, fp.2)]
    else [fp]

/-- The whole subtraction loop (source lines 1009–1021): start from the whole
window and subtract each occupied interval in turn. -/
def subtractOccupiedFromWindow (w : TimeRange) (occupied : List TimeRange) :
    List TimeRange :=
  occupied.foldl subtractPass [w]

/-- The chunking `while` loop (source lines 1036–1048), with explicit fuel.
Each iteration advances `cur` by at least one minute (the chunk size is 15 or
30), so fuel `(fe - cur).toNat` makes the recursion equal to the source loop. -/
def chunkLoop (size fe : Int) : Nat → Int → List TimeRange
  | 0, _ => []
  | n + 1, cur =>
      if cur < fe then (cur, min (cur + size) fe) :: chunkLoop size fe n (min (cur + size) fe)
      else []

/-- The chunk list built for a free part `[fs, fe)` (source lines 1036–1048). -/
def chunksFrom (fs fe size : Int) : List TimeRange :=
  chunkLoop size fe (fe - fs).toNat fs

/-- Processing of one free remainder after the energy/type filter passed
(source lines 1031–1051): keep it whole when it is at least the task's
estimated time, otherwise chunk it (15-minute chunks unless the task needs
high energy, then 30) and append `(chunks[0][0], chunks[-1][1])` when any
chunks exist. -/
def candidatesOfFreePart (taskEnergyInt estimatedTime : Int) (p : TimeRange) :
    List TimeRange :=
  if p.2 - p.1 ≥ estimatedTime then [p]
  else
    match chunksFrom p.1 p.2 (if taskEnergyInt ≠ 3 then 15 else 30) with
    | [] => []
    | c :: cs => [(c.1, ((c :: cs).getLastD c).2)]

/-- Processing of one free remainder (source lines 1024–1051).  The duration
comparison reads `task["estimated_time"]` where `task` is a global name that
is not a parameter of the function; `globalTask` is the value of that global
if one is bound.  Reaching the comparison with no global bound raises
`NameError`, modelled as `Except.error ()`. -/
def processFreePart (slot : EnergySlot) (taskType : String) (taskEnergyInt : Int)
    (globalTask : Option Int) (p : TimeRange) : Except Unit (List TimeRange) :=
  if convertEnergyLevelToInt slot.energyLevel ≥ taskEnergyInt ∧
      slot.taskType = taskType then
    match globalTask with
    | none => .error ()
    | some est => .ok (candidatesOfFreePart taskEnergyInt est p)
  else .ok []

/-- The loop over the free remainders of one window (source line 1024). -/
def processFreeParts (slot : EnergySlot) (taskType : String) (taskEnergyInt : Int)
    (globalTask : Option Int) : List TimeRange → Except Unit (List TimeRange)
  | [] => .ok []
  | p :: ps =>
      match processFreePart slot taskType taskEnergyInt globalTask p with
      | .error e => .error e
      | .ok cs =>
          match processFreeParts slot taskType taskEnergyInt globalTask ps with
          | .error e => .error e
          | .ok rest => .ok (cs ++ rest)

/-- Processing of one energy window (source lines 994–1051): skip windows that
end before "now" or start at/after the deadline, then subtract the occupied
intervals and process each free remainder. -/
def processSlot (occupied : List TimeRange) (taskType : String)
    (taskEnergyInt deadlineVal currentTime : Int) (globalTask : Option Int)
    (slot : EnergySlot) : Except Unit (List TimeRange) :=
  if slot.timeRange.2 ≤ currentTime ∨ slot.timeRange.1 ≥ deadlineVal then .ok []
  else
    processFreeParts slot taskType taskEnergyInt globalTask
      (subtractOccupiedFromWindow slot.timeRange occupied)

/-- The loop over one day's windows (source line 994), concatenating each
window's surviving candidates into `available_slots`. -/
def processDaySlots (occupied : List TimeRange) (taskType : String)
    (taskEnergyInt deadlineVal currentTime : Int) (globalTask : Option Int) :
    List EnergySlot → Except Unit (List TimeRange)
  | [] => .ok []
  | s :: ss =>
      match processSlot occupied taskType taskEnergyInt deadlineVal currentTime
          globalTask s with
      | .error e => .error e
      | .ok cs =>
          match processDaySlots occupied taskType taskEnergyInt deadlineVal
              currentTime globalTask ss with
          | .error e => .error e
          | .ok rest => .ok (cs ++ rest)

/-- The loop over the profile's days (source lines 991–1054); a day is added
to the output only when it has surviving candidates (source line 1053). -/
def processDays (occupied : List TimeRange) (taskType : String)
    (taskEnergyInt deadlineVal currentTime : Int) (globalTask : Option Int) :
    List (String × List EnergySlot) → Except Unit (List (String × List TimeRange))
  | [] => .ok []
  | (day, slots) :: rest =>
      match processDaySlots occupied taskType taskEnergyInt deadlineVal
          currentTime globalTask slots with
      | .error e => .error e
      | .ok avail =>
          match processDays occupied taskType taskEnergyInt deadlineVal
              currentTime globalTask rest with
          | .error e => .error e
          | .ok restDays =>
              .ok (if avail ≠ [] then (day, avail) :: restDays else restDays)

/-- The sentinel `datetime(9999, 12, 31, 23, 59, 59)` assigned when the task
has no deadline (source line 985): an instant far beyond any time this model
ever compares it with; its exact value is irrelevant to every claim. -/
def farFutureSentinel : Int := 5000000000

/-- The deadline actually compared against (source lines 984–987): the far
future sentinel when the task has no deadline, else the deadline itself. -/
def deadlineValue (taskDeadline : Option Int) : Int :=
  match taskDeadline with
  | none => farFutureSentinel
  | some d => d

/-- `get_available_timeslots` (source lines 963–1059).  `currentTime` models
`datetime.now()`; `globalTask` models the value of the global name `task`
(its `estimated_time` entry) if one is bound when the function runs. -/
def getAvailableTimeslots (energyProfile : List (String × List EnergySlot))
    (occupiedSlots : List TimeRange) (taskType taskEnergyLevel : String)
    (taskDeadline : Option Int) (currentTime : Int) (globalTask : Option Int) :
    Except Unit (List (String × List TimeRange)) :=
  processDays occupiedSlots taskType (convertEnergyLevelToInt taskEnergyLevel)
    (deadlineValue taskDeadline) currentTime globalTask energyProfile

/-! ### Properties of the occupied-interval subtraction -/

/-- Every piece produced by one subtraction pass lies inside some input part. -/
theorem subtractPass_shrink (parts : List TimeRange) (o : TimeRange)
    (p' : TimeRange) (h : p' ∈ subtractPass parts o) :
    ∃ p ∈ parts, p.1 ≤ p'.1 ∧ p'.2 ≤ p.2 := by
  rcases List.mem_flatMap.mp h with ⟨fp, hfp, hmem⟩
  refine ⟨fp, hfp, ?_⟩
  by_cases h1 : fp.1 ≥ o.1 ∧ fp.2 ≤ o.2
  · simp [if_pos h1] at hmem
  · rw [if_neg h1] at hmem
    by_cases h2 : fp.1 < o.1 ∧ o.1 < fp.2
    · rw [if_pos h2] at hmem
      rcases List.mem_singleton.mp hmem with rfl
      exact ⟨le_refl _, le_of_lt h2.2⟩
    · rw [if_neg h2] at hmem
      by_cases h3 : fp.1 < o.2 ∧ o.2 < fp.2
      · rw [if_pos h3] at hmem
        rcases List.mem_singleton.mp hmem with rfl
        exact ⟨le_of_lt h3.1, le_refl _⟩
      · rw [if_neg h3] at hmem
        rcases List.mem_singleton.mp hmem with rfl
        exact ⟨le_refl _, le_refl _⟩

/-- Every piece surviving one subtraction pass is disjoint from the occupied
interval that was subtracted. -/
theorem subtractPass_disjoint (parts : List TimeRange) (o : TimeRange)
    (p' : TimeRange) (h : p' ∈ subtractPass parts o) :
    ¬ (p'.1 < o.2 ∧ o.1 < p'.2) := by
  rcases List.mem_flatMap.mp h with ⟨fp, _, hmem⟩
  by_cases h1 : fp.1 ≥ o.1 ∧ fp.2 ≤ o.2
  · simp [if_pos h1] at hmem
  · rw [if_neg h1] at hmem
    by_cases h2 : fp.1 < o.1 ∧ o.1 < fp.2
    · rw [if_pos h2] at hmem
      rcases List.mem_singleton.mp hmem with rfl
      intro hc
      exact absurd hc.2 (lt_irrefl o.1)
    · rw [if_neg h2] at hmem
      by_cases h3 : fp.1 < o.2 ∧ o.2 < fp.2
      · rw [if_pos h3] at hmem
        rcases List.mem_singleton.mp hmem with rfl
        intro hc
        exact absurd hc.1 (lt_irrefl o.2)
      · rw [if_neg h3] at hmem
        rcases List.mem_singleton.mp hmem with rfl
        push_neg at h1 h2 h3
        intro hc
        omega

/-- Every remainder of the subtraction loop lies inside some starting part and
is disjoint from every subtracted occupied interval. -/
theorem foldl_subtractPass_inv (occ : List TimeRange) :
    ∀ (parts : List TimeRange) (p' : TimeRange),
      p' ∈ List.foldl subtractPass parts occ →
      (∃ p ∈ parts, p.1 ≤ p'.1 ∧ p'.2 ≤ p.2) ∧
        ∀ o ∈ occ, ¬ (p'.1 < o.2 ∧ o.1 < p'.2) := by
  induction occ with
  | nil =>
      intro parts p' h
      exact ⟨⟨p', h, le_refl _, le_refl _⟩, by intro o ho; cases ho⟩
  | cons o os ih =>
      intro parts p' h
      rw [List.foldl_cons] at h
      obtain ⟨⟨q, hq, hq1, hq2⟩, hos⟩ := ih (subtractPass parts o) p' h
      obtain ⟨p, hp, hp1, hp2⟩ := subtractPass_shrink parts o q hq
      have hqo := subtractPass_disjoint parts o q hq
      refine ⟨⟨p, hp, le_trans hp1 hq1, le_trans hq2 hp2⟩, ?_⟩
      intro o' ho'
      rcases List.mem_cons.mp ho' with rfl | ho'
      · intro hc
        exact hqo ⟨lt_of_le_of_lt hq1 hc.1, lt_of_lt_of_le hc.2 hq2⟩
      · exact hos o' ho'

/-- **C6.** The Slot Resolver's interval subtraction: subtracting no occupied
intervals returns the window itself; subtracting the window from itself
returns nothing; subtracting a single well-formed occupied interval lying
fully outside a non-empty window leaves the window unchanged; and every
remainder it produces is contained in the input window. -/
theorem C6_subtract_contracts :
    (∀ w : TimeRange, subtractOccupiedFromWindow w [] = [w]) ∧
      (∀ w : TimeRange, subtractOccupiedFromWindow w [w] = []) ∧
      (∀ w o : TimeRange, w.1 < w.2 → o.1 ≤ o.2 → (o.2 ≤ w.1 ∨ w.2 ≤ o.1) →
        subtractOccupiedFromWindow w [o] = [w]) ∧
      (∀ (w : TimeRange) (occ : List TimeRange) (p : TimeRange),
        p ∈ subtractOccupiedFromWindow w occ → w.1 ≤ p.1 ∧ p.2 ≤ w.2) := by
  refine ⟨fun w => rfl, ?_, ?_, ?_⟩
  · intro w
    simp [subtractOccupiedFromWindow, subtractPass]
  · intro w o hw ho houtside
    have h1 : ¬ (w.1 ≥ o.1 ∧ w.2 ≤ o.2) := by omega
    have h2 : ¬ (w.1 < o.1 ∧ o.1 < w.2) := by omega
    have h3 : ¬ (w.1 < o.2 ∧ o.2 < w.2) := by omega
    simp [subtractOccupiedFromWindow, subtractPass, if_neg h1, if_neg h2, if_neg h3]
  · intro w occ p hp
    obtain ⟨⟨q, hq, h1, h2⟩, _⟩ := foldl_subtractPass_inv occ [w] p hp
    rcases List.mem_singleton.mp hq with rfl
    exact ⟨h1, h2⟩

/-- Witness for C6, discharging its hypotheses at concrete inputs. -/
theorem C6_subtract_contracts_witness :
    subtractOccupiedFromWindow ((100:Int), (200:Int)) [((10:Int), (50:Int))] =
      [((100:Int), (200:Int))] ∧
      ((100:Int) ≤ 100 ∧ (120:Int) ≤ 200) := by
  constructor
  · exact C6_subtract_contracts.2.2.1 (100, 200) (10, 50) (by decide) (by decide)
      (Or.inl (by decide))
  · exact C6_subtract_contracts.2.2.2 (100, 200) [(120, 160)] (100, 120) (by decide)

/-! ### The chunk-and-remerge step returns the free part itself -/

theorem chunkLoop_eq_nil (size fe : Int) (n : Nat) (cur : Int)
    (h : ¬ cur < fe) : chunkLoop size fe n cur = [] := by
  cases n with
  | zero => rfl
  | succ n => simp [chunkLoop, h]

theorem chunkLoop_spec (size fe : Int) (hsize : 1 ≤ size) :
    ∀ (n : Nat) (cur : Int), cur < fe → (fe - cur).toNat ≤ n →
      ∃ cs, chunkLoop size fe n cur = (cur, min (cur + size) fe) :: cs ∧
        ∀ d : TimeRange, (((cur, min (cur + size) fe) :: cs).getLastD d).2 = fe := by
  intro n
  induction n with
  | zero => intro cur hc hf; omega
  | succ n ih =>
      intro cur hc hf
      refine ⟨chunkLoop size fe n (min (cur + size) fe), by simp [chunkLoop, hc], ?_⟩
      by_cases hnext : min (cur + size) fe < fe
      · obtain ⟨cs', heq, hlast⟩ := ih (min (cur + size) fe) hnext (by omega)
        intro d
        rw [heq, List.getLastD_cons]
        exact hlast _
      · intro d
        rw [chunkLoop_eq_nil size fe n _ hnext]
        simp only [List.getLastD_cons, List.getLastD_nil]
        omega

theorem chunksFrom_spec (fs fe size : Int) (hsize : 1 ≤ size) (h : fs < fe) :
    ∃ cs, chunksFrom fs fe size = (fs, min (fs + size) fe) :: cs ∧
      ∀ d : TimeRange, (((fs, min (fs + size) fe) :: cs).getLastD d).2 = fe :=
  chunkLoop_spec size fe hsize (fe - fs).toNat fs h (le_refl _)

/-- The chunking branch of the resolver re-merges the chunks back into the
whole free part, so every candidate it emits equals the free part itself. -/
theorem candidatesOfFreePart_eq (taskEnergyInt estimatedTime : Int)
    (p c : TimeRange) (h : c ∈ candidatesOfFreePart taskEnergyInt estimatedTime p) :
    c = p := by
  rw [candidatesOfFreePart] at h
  by_cases hdur : p.2 - p.1 ≥ estimatedTime
  · rw [if_pos hdur] at h
    exact List.mem_singleton.mp h
  · rw [if_neg hdur] at h
    set size : Int := if taskEnergyInt ≠ 3 then 15 else 30 with hsz
    have hsize : 1 ≤ size := by
      rw [hsz]; by_cases h3 : taskEnergyInt ≠ 3 <;> simp [h3]
    by_cases hlt : p.1 < p.2
    · obtain ⟨cs, heq, hlast⟩ := chunksFrom_spec p.1 p.2 size hsize hlt
      rw [heq] at h
      simp only [List.mem_singleton] at h
      subst h
      refine Prod.ext rfl ?_
      exact hlast _
    · rw [chunksFrom, chunkLoop_eq_nil size p.2 _ _ hlt] at h
      cases h

/-- If the resolver's free-part processing succeeds, every candidate it emits
is one of the free parts it was given. -/
theorem processFreeParts_ok_mem (slot : EnergySlot) (taskType : String)
    (taskEnergyInt : Int) (globalTask : Option Int) :
    ∀ (parts cs : List TimeRange),
      processFreeParts slot taskType taskEnergyInt globalTask parts = .ok cs →
      ∀ c ∈ cs, c ∈ parts := by
  intro parts
  induction parts with
  | nil =>
      intro cs h c hc
      simp only [processFreeParts] at h
      cases h
      cases hc
  | cons p ps ih =>
      intro cs h c hc
      rw [processFreeParts] at h
      cases h1 : processFreePart slot taskType taskEnergyInt globalTask p with
      | error e => rw [h1] at h; cases h
      | ok cs1 =>
          rw [h1] at h
          cases h2 : processFreeParts slot taskType taskEnergyInt globalTask ps with
          | error e => rw [h2] at h; cases h
          | ok cs2 =>
              rw [h2] at h
              cases h
              rcases List.mem_append.mp hc with hm | hm
              · have hcp : c = p := by
                  rw [processFreePart.eq_def] at h1
                  by_cases hf : convertEnergyLevelToInt slot.energyLevel ≥ taskEnergyInt ∧
                      slot.taskType = taskType
                  · rw [if_pos hf] at h1
                    cases globalTask with
                    | none => cases h1
                    | some est =>
                        cases h1
                        exact candidatesOfFreePart_eq taskEnergyInt est p c hm
                  · rw [if_neg hf] at h1
                    cases h1
                    cases hm
                subst hcp
                exact List.mem_cons_self c ps
              · exact List.mem_cons_of_mem p (ih cs2 h2 c hm)

/-- If processing one window succeeds, every candidate is a remainder of
subtracting the occupied intervals from that window. -/
theorem processSlot_ok_mem (occupied : List TimeRange) (taskType : String)
    (taskEnergyInt deadlineVal currentTime : Int) (globalTask : Option Int)
    (slot : EnergySlot) (cs : List TimeRange)
    (h : processSlot occupied taskType taskEnergyInt deadlineVal currentTime
      globalTask slot = .ok cs) :
    ∀ c ∈ cs, c ∈ subtractOccupiedFromWindow slot.timeRange occupied := by
  rw [processSlot] at h
  by_cases hskip : slot.timeRange.2 ≤ currentTime ∨ slot.timeRange.1 ≥ deadlineVal
  · rw [if_pos hskip] at h
    cases h
    intro c hc
    cases hc
  · rw [if_neg hskip] at h
    exact processFreeParts_ok_mem slot taskType taskEnergyInt globalTask _ cs h

/-- If processing one day's windows succeeds, every candidate comes from one
of that day's windows. -/
theorem processDaySlots_ok_mem (occupied : List TimeRange) (taskType : String)
    (taskEnergyInt deadlineVal currentTime : Int) (globalTask : Option Int) :
    ∀ (slots : List EnergySlot) (cs : List TimeRange),
      processDaySlots occupied taskType taskEnergyInt deadlineVal currentTime
        globalTask slots = .ok cs →
      ∀ c ∈ cs, ∃ s ∈ slots, c ∈ subtractOccupiedFromWindow s.timeRange occupied := by
  intro slots
  induction slots with
  | nil =>
      intro cs h c hc
      simp only [processDaySlots] at h
      cases h
      cases hc
  | cons s ss ih =>
      intro cs h c hc
      rw [processDaySlots] at h
      cases h1 : processSlot occupied taskType taskEnergyInt deadlineVal
          currentTime globalTask s with
      | error e => rw [h1] at h; cases h
      | ok cs1 =>
          rw [h1] at h
          cases h2 : processDaySlots occupied taskType taskEnergyInt deadlineVal
              currentTime globalTask ss with
          | error e => rw [h2] at h; cases h
          | ok cs2 =>
              rw [h2] at h
              cases h
              rcases List.mem_append.mp hc with hm | hm
              · exact ⟨s, List.mem_cons_self s ss,
                  processSlot_ok_mem occupied taskType taskEnergyInt deadlineVal
                    currentTime globalTask s cs1 h1 c hm⟩
              · obtain ⟨s', hs', hc'⟩ := ih cs2 h2 c hm
                exact ⟨s', List.mem_cons_of_mem s hs', hc'⟩

/-- If the whole resolver succeeds, every reported day and candidate comes
from a profile entry for that day. -/
theorem processDays_ok_mem (occupied : List TimeRange) (taskType : String)
    (taskEnergyInt deadlineVal currentTime : Int) (globalTask : Option Int) :
    ∀ (profile : List (String × List EnergySlot))
      (res : List (String × List TimeRange)),
      processDays occupied taskType taskEnergyInt deadlineVal currentTime
        globalTask profile = .ok res →
      ∀ dc ∈ res, ∃ e ∈ profile, e.1 = dc.1 ∧
        ∀ c ∈ dc.2, ∃ s ∈ e.2, c ∈ subtractOccupiedFromWindow s.timeRange occupied := by
  intro profile
  induction profile with
  | nil =>
      intro res h dc hdc
      simp only [processDays] at h
      cases h
      cases hdc
  | cons e rest ih =>
      intro res h dc hdc
      rw [processDays] at h
      cases h1 : processDaySlots occupied taskType taskEnergyInt deadlineVal
          currentTime globalTask e.2 with
      | error err => rw [h1] at h; cases h
      | ok avail =>
          rw [h1] at h
          cases h2 : processDays occupied taskType taskEnergyInt deadlineVal
              currentTime globalTask rest with
          | error err => rw [h2] at h; cases h
          | ok restDays =>
              rw [h2] at h
              cases h
              by_cases hne : avail ≠ []
              · rw [if_pos hne] at hdc
                rcases List.mem_cons.mp hdc with rfl | hdc'
                · refine ⟨e, List.mem_cons_self e rest, rfl, ?_⟩
                  intro c hc
                  exact processDaySlots_ok_mem occupied taskType taskEnergyInt
                    deadlineVal currentTime globalTask e.2 avail h1 c hc
                · obtain ⟨e', he', heq, hall⟩ := ih restDays h2 dc hdc'
                  exact ⟨e', List.mem_cons_of_mem e he', heq, hall⟩
              · rw [if_neg hne] at hdc
                obtain ⟨e', he', heq, hall⟩ := ih restDays h2 dc hdc
                exact ⟨e', List.mem_cons_of_mem e he', heq, hall⟩

/-- **C2.** For every energy profile, occupied-interval set and task
constraint triple (and any current time and bound global task), every
candidate slot the Slot Resolver returns is fully contained in one of the
profile's energy windows on its reported date and is disjoint from every
occupied interval in the input set. -/
theorem C2_candidates_contained_and_disjoint
    (energyProfile : List (String × List EnergySlot))
    (occupiedSlots : List TimeRange) (taskType taskEnergyLevel : String)
    (taskDeadline : Option Int) (currentTime : Int) (globalTask : Option Int)
    (res : List (String × List TimeRange))
    (h : getAvailableTimeslots energyProfile occupiedSlots taskType
      taskEnergyLevel taskDeadline currentTime globalTask = .ok res) :
    ∀ dc ∈ res, ∀ c ∈ dc.2,
      (∃ e ∈ energyProfile, e.1 = dc.1 ∧
        ∃ s ∈ e.2, s.timeRange.1 ≤ c.1 ∧ c.2 ≤ s.timeRange.2) ∧
      (∀ o ∈ occupiedSlots, ¬ (c.1 < o.2 ∧ o.1 < c.2)) := by
  intro dc hdc c hc
  rw [getAvailableTimeslots] at h
  obtain ⟨e, he, heq, hall⟩ := processDays_ok_mem occupiedSlots taskType
    (convertEnergyLevelToInt taskEnergyLevel) _ currentTime globalTask
    energyProfile res h dc hdc
  obtain ⟨s, hs, hcsub⟩ := hall c hc
  obtain ⟨⟨p, hp, hp1, hp2⟩, hdisj⟩ :=
    foldl_subtractPass_inv occupiedSlots [s.timeRange] c hcsub
  rcases List.mem_singleton.mp hp with rfl
  exact ⟨⟨e, he, heq, s, hs, hp1, hp2⟩, hdisj⟩

/-- Witness for C2: the scenario profile with one window 09:00–10:30 on day 2
(minutes 3420–3510 from a midnight origin), one occupied interval 09:20–09:40
(3440–3460): the returned candidate (3420, 3440) does not overlap it. -/
theorem C2_candidates_witness :
    ¬ ((3420:Int) < 3460 ∧ (3440:Int) < 3440) :=
  (C2_candidates_contained_and_disjoint
      [("day2", [⟨(3420, 3510), "Work", "high"⟩])] [(3440, 3460)]
      "Work" "medium" (some 4320) 0 (some 60)
      [("day2", [(3420, 3440)])] rfl
      ("day2", [(3420, 3440)]) (by decide) (3420, 3440) (by decide)).2
    (3440, 3460) (by decide)

/-! ### The unbound global `task` (claim C9) -/

/-- The energy-level and scope filter a free remainder must pass before the
resolver compares durations (source line 1030). -/
def passesFilters (slot : EnergySlot) (taskType : String) (taskEnergyInt : Int) :
    Prop :=
  convertEnergyLevelToInt slot.energyLevel ≥ taskEnergyInt ∧
    slot.taskType = taskType

instance (slot : EnergySlot) (taskType : String) (taskEnergyInt : Int) :
    Decidable (passesFilters slot taskType taskEnergyInt) :=
  inferInstanceAs (Decidable (_ ∧ _))

theorem processFreeParts_error (slot : EnergySlot) (taskType : String)
    (taskEnergyInt : Int) (parts : List TimeRange)
    (hfil : passesFilters slot taskType taskEnergyInt) (hne : parts ≠ []) :
    processFreeParts slot taskType taskEnergyInt none parts = .error () := by
  cases parts with
  | nil => exact absurd rfl hne
  | cons p ps =>
      have hfil' : convertEnergyLevelToInt slot.energyLevel ≥ taskEnergyInt ∧
          slot.taskType = taskType := hfil
      rw [processFreeParts, processFreePart, if_pos hfil']

theorem processSlot_error (occupied : List TimeRange) (taskType : String)
    (taskEnergyInt deadlineVal currentTime : Int) (slot : EnergySlot)
    (hskip : ¬ (slot.timeRange.2 ≤ currentTime ∨ slot.timeRange.1 ≥ deadlineVal))
    (hfil : passesFilters slot taskType taskEnergyInt)
    (hne : subtractOccupiedFromWindow slot.timeRange occupied ≠ []) :
    processSlot occupied taskType taskEnergyInt deadlineVal currentTime none
      slot = .error () := by
  rw [processSlot, if_neg hskip]
  exact processFreeParts_error slot taskType taskEnergyInt _ hfil hne

theorem processDaySlots_error (occupied : List TimeRange) (taskType : String)
    (taskEnergyInt deadlineVal currentTime : Int) :
    ∀ slots : List EnergySlot,
      (∃ s ∈ slots,
        ¬ (s.timeRange.2 ≤ currentTime ∨ s.timeRange.1 ≥ deadlineVal) ∧
        passesFilters s taskType taskEnergyInt ∧
        subtractOccupiedFromWindow s.timeRange occupied ≠ []) →
      processDaySlots occupied taskType taskEnergyInt deadlineVal currentTime
        none slots = .error () := by
  intro slots
  induction slots with
  | nil => rintro ⟨s, hs, _⟩; cases hs
  | cons s₀ ss ih =>
      rintro ⟨s, hs, hskip, hfil, hne⟩
      rw [processDaySlots]
      cases h₀ : processSlot occupied taskType taskEnergyInt deadlineVal
          currentTime none s₀ with
      | error e => rfl
      | ok cs =>
          have hs' : s ∈ ss := by
            rcases List.mem_cons.mp hs with rfl | hmem
            · rw [processSlot_error occupied taskType taskEnergyInt deadlineVal
                currentTime s hskip hfil hne] at h₀
              cases h₀
            · exact hmem
          rw [ih ⟨s, hs', hskip, hfil, hne⟩]

theorem processDays_error (occupied : List TimeRange) (taskType : String)
    (taskEnergyInt deadlineVal currentTime : Int) :
    ∀ profile : List (String × List EnergySlot),
      (∃ e ∈ profile, ∃ s ∈ e.2,
        ¬ (s.timeRange.2 ≤ currentTime ∨ s.timeRange.1 ≥ deadlineVal) ∧
        passesFilters s taskType taskEnergyInt ∧
        subtractOccupiedFromWindow s.timeRange occupied ≠ []) →
      processDays occupied taskType taskEnergyInt deadlineVal currentTime
        none profile = .error () := by
  intro profile
  induction profile with
  | nil => rintro ⟨e, he, _⟩; cases he
  | cons e₀ rest ih =>
      rintro ⟨e, he, s, hs, hcond⟩
      rw [processDays]
      cases h₀ : processDaySlots occupied taskType taskEnergyInt deadlineVal
          currentTime none e₀.2 with
      | error err => rfl
      | ok avail =>
          have he' : e ∈ rest := by
            rcases List.mem_cons.mp he with rfl | hmem
            · rw [processDaySlots_error occupied taskType taskEnergyInt
                deadlineVal currentTime e.2 ⟨s, hs, hcond⟩] at h₀
              cases h₀
            · exact hmem
          rw [ih ⟨e, he', s, hs, hcond⟩]

/-- **C9.** `get_available_timeslots` reads `task["estimated_time"]` through
the global name `task`, which is not one of its parameters: in any call with
no global `task` bound, as soon as one free remainder of a non-skipped window
passes the energy-level and scope filters and so reaches the duration
comparison, the function raises `NameError` (modelled `.error ()`) instead of
returning a timeslot dictionary. -/
theorem C9_unbound_global_task_nameerror
    (energyProfile : List (String × List EnergySlot))
    (occupiedSlots : List TimeRange) (taskType taskEnergyLevel : String)
    (taskDeadline : Option Int) (currentTime : Int)
    (h : ∃ e ∈ energyProfile, ∃ s ∈ e.2,
      ¬ (s.timeRange.2 ≤ currentTime ∨
          s.timeRange.1 ≥ deadlineValue taskDeadline) ∧
      passesFilters s taskType (convertEnergyLevelToInt taskEnergyLevel) ∧
      subtractOccupiedFromWindow s.timeRange occupiedSlots ≠ []) :
    getAvailableTimeslots energyProfile occupiedSlots taskType taskEnergyLevel
      taskDeadline currentTime none = .error () := by
  rw [getAvailableTimeslots]
  exact processDays_error occupiedSlots taskType
    (convertEnergyLevelToInt taskEnergyLevel) (deadlineValue taskDeadline)
    currentTime energyProfile h

/-- Witness for C9: a standalone call (as `print_suitable_timeslots` makes,
source lines 1061–1076) on a profile with one eligible window raises the
modelled `NameError`. -/
theorem C9_unbound_global_task_witness :
    getAvailableTimeslots [("d0", [⟨(60, 180), "Work", "high"⟩])] []
      "Work" "medium" none 0 none = .error () :=
  C9_unbound_global_task_nameerror
    [("d0", [⟨(60, 180), "Work", "high"⟩])] [] "Work" "medium" none 0
    ⟨("d0", [⟨(60, 180), "Work", "high"⟩]), by decide,
      ⟨(60, 180), "Work", "high"⟩, by decide, by decide, by decide, by decide⟩

/-! ## Task Scorer: `calculate_task_score` (source lines 889–956)

A task as parsed from Todoist (source lines 400–411; the fields not used by
the scheduling core — labels, notes, classification — are omitted).  Scores
are exact rationals standing for the source's floats. -/

structure Task where
  id : String
  name : String
  estimatedTime : Int
  energyLevel : String
  impact : String
  taskType : String
  deadline : Option Int
deriving Repr, DecidableEq

/-- `impact_mapping` (source lines 889–894) looked up with
`task.get("impact", "low").lower()` and default `0` (source line 922). -/
def impactMapping (impact : String) : ℚ :=
  if pyLower impact = "very high" then 4
  else if pyLower impact = "high" then 3
  else if pyLower impact = "medium" then 2
  else if pyLower impact = "low" then 1
  else 0

/-- `{"low": 1, "medium": 2, "high": 3}.get(..., 0)` (source line 921; no
`.lower()` here in the source). -/
def energyRequired (energyLevel : String) : ℚ :=
  if energyLevel = "low" then 1
  else if energyLevel = "medium" then 2
  else if energyLevel = "high" then 3
  else 0

/-- The scoring weights (source lines 897–902). -/
def wT : ℚ := 0.2

/-- Weight of the energy component (source line 899). -/
def wE : ℚ := 0.4

/-- Weight of the impact component (source line 900). -/
def wI : ℚ := 0.3

/-- Weight of the deadline component (source line 901). -/
def wD : ℚ := 0.1

/-- `max_time = 480` minutes (source line 905). -/
def maxTime : ℚ := 480

/-- `maximum_energy = 3` (source line 906). -/
def maximumEnergy : ℚ := 3

/-- `deadline_days = (deadline - current_time).days` (source line 942):
Python's `timedelta.days` floors, hence `Int.fdiv` by 1440 minutes.  `none`
stands for the source's `float('inf')` when there is no deadline. -/
def deadlineDays (deadline : Option Int) (now : Int) : Option Int :=
  match deadline with
  | none => none
  | some d => some ((d - now).fdiv 1440)

/-- The deadline component of the score (source lines 948–952).  For
`deadline_days = float('inf')` the source computes `(1/(inf+1)) * 0.1`, which
is exactly `0.0` in floats.  For an overdue task the source assigns the bare
constant `2` (not multiplied by the weight). -/
def deadlineScoreOf (deadline : Option Int) (now : Int) : ℚ :=
  match deadlineDays deadline now with
  | none => 0
  | some days => if days ≥ 0 then (1 / ((days : ℚ) + 1)) * wD else 2

/-- `calculate_task_score` (source lines 909–956). -/
def calculateTaskScore (task : Task) (now : Int) : ℚ :=
  ((task.estimatedTime : ℚ) / maxTime) * wT +
    (energyRequired task.energyLevel / maximumEnergy) * wE +
    impactMapping task.impact * wI +
    deadlineScoreOf task.deadline now

/-! ### The formula as the specification claims it (for claim C3) -/

/-- `impactValue` as the claim words it: 1/2/3/4 for the four impact levels. -/
def specImpactValue (impact : String) : ℚ :=
  if impact = "low" then 1
  else if impact = "medium" then 2
  else if impact = "high" then 3
  else if impact = "very high" then 4
  else 0

/-- `deadlineUrgency` as the claim words it: 0 with no deadline, the constant
2.0 when the deadline is in the past, else `1/(daysUntilDeadline + 1)`. -/
def specDeadlineUrgency (deadline : Option Int) (now : Int) : ℚ :=
  match deadline with
  | none => 0
  | some d => if d < now then 2 else 1 / (((d - now).fdiv 1440 : ℚ) + 1)

/-- The claimed scoring formula
`0.2·(duration/480) + 0.4·(energyRequirement/3) + 0.3·impactValue
 + 0.1·deadlineUrgency`. -/
def specClaimedScore (task : Task) (now : Int) : ℚ :=
  0.2 * ((task.estimatedTime : ℚ) / 480) +
    0.4 * (energyRequired task.energyLevel / 3) +
    0.3 * specImpactValue task.impact +
    0.1 * specDeadlineUrgency task.deadline now

/-- The amended formula: identical to the claimed one except that an overdue
deadline contributes the unweighted constant `2.0` instead of
`0.1 · 2.0`. -/
def specAmendedScore (task : Task) (now : Int) : ℚ :=
  0.2 * ((task.estimatedTime : ℚ) / 480) +
    0.4 * (energyRequired task.energyLevel / 3) +
    0.3 * specImpactValue task.impact +
    (match task.deadline with
      | none => 0.1 * (0 : ℚ)
      | some d =>
          if d < now then (2 : ℚ)
          else 0.1 * (1 / (((d - now).fdiv 1440 : ℚ) + 1)))

theorem fdiv_1440_neg_iff (x : Int) : x.fdiv 1440 < 0 ↔ x < 0 := by
  rw [Int.fdiv_eq_ediv x (by norm_num : (0:Int) ≤ 1440)]
  omega

theorem impactMapping_agree (impact : String)
    (h : impact ∈ ["low", "medium", "high", "very high"]) :
    impactMapping impact = specImpactValue impact := by
  fin_cases h <;> decide

theorem deadlineScoreOf_cases (dl : Option Int) (now : Int) :
    deadlineScoreOf dl now =
      match dl with
      | none => 0.1 * (0 : ℚ)
      | some d =>
          if d < now then (2 : ℚ)
          else 0.1 * (1 / (((d - now).fdiv 1440 : ℚ) + 1)) := by
  cases dl with
  | none => simp [deadlineScoreOf, deadlineDays]
  | some d =>
      simp only [deadlineScoreOf, deadlineDays]
      by_cases hd : d < now
      · have hdays : (d - now).fdiv 1440 < 0 := (fdiv_1440_neg_iff _).mpr (by omega)
        rw [if_neg (show ¬ (d - now).fdiv 1440 ≥ 0 by omega), if_pos hd]
      · have hdays : ¬ (d - now).fdiv 1440 < 0 := fun hc =>
          hd (by have := (fdiv_1440_neg_iff (d - now)).mp hc; omega)
        rw [if_pos (show (d - now).fdiv 1440 ≥ 0 by omega), if_neg hd, wD]
        ring

/-- **C3 (counterexample).** For the task with a 60-minute estimate, medium
energy, low impact and a deadline one day in the past, the computed score is
not the claimed `0.2·(60/480) + 0.4·(2/3) + 0.3·1 + 0.1·2.0`: the source adds
the overdue constant `2` without multiplying it by the 0.1 weight. -/
theorem C3_score_formula_counterexample :
    calculateTaskScore ⟨"t1", "task", 60, "medium", "low", "Work",
        some (-1440)⟩ 0 ≠
      specClaimedScore ⟨"t1", "task", 60, "medium", "low", "Work",
        some (-1440)⟩ 0 := by
  have h1 : impactMapping "low" = 1 := by decide
  have h2 : specImpactValue "low" = 1 := by decide
  have h3 : energyRequired "medium" = 2 := by decide
  have h4 : deadlineScoreOf (some (-1440)) 0 = 2 := by
    simp only [deadlineScoreOf, deadlineDays]
    rw [if_neg (show ¬ ((-1440 : Int) - 0).fdiv 1440 ≥ 0 by decide)]
  have h5 : specDeadlineUrgency (some (-1440)) 0 = 2 := by
    simp only [specDeadlineUrgency]
    rw [if_pos (show (-1440 : Int) < 0 by decide)]
  simp only [calculateTaskScore, specClaimedScore, maxTime, maximumEnergy,
    wT, wE, wI, wD, h1, h2, h3, h4, h5]
  norm_num

/-- **C3 (amended).** For every task whose impact and energy labels are among
the documented values, the computed score equals
`0.2·(duration/480) + 0.4·(energyRequirement/3) + 0.3·impactValue + deadlineTerm`
where the deadline term is `0.1·0` with no deadline,
`0.1·(1/(daysUntilDeadline+1))` for a deadline not in the past, and the
unweighted constant `2.0` for a deadline in the past. -/
theorem C3_score_formula_amended (task : Task) (now : Int)
    (himp : task.impact ∈ ["low", "medium", "high", "very high"]) :
    calculateTaskScore task now = specAmendedScore task now := by
  rw [calculateTaskScore, specAmendedScore, ← deadlineScoreOf_cases,
    impactMapping_agree task.impact himp, maxTime, maximumEnergy, wT, wE, wI]
  ring

/-- Witness for C3's amended theorem at a concrete overdue task. -/
theorem C3_score_formula_amended_witness :
    calculateTaskScore ⟨"t1", "task", 60, "medium", "low", "Work",
        some (-1440)⟩ 0 =
      specAmendedScore ⟨"t1", "task", 60, "medium", "low", "Work",
        some (-1440)⟩ 0 :=
  C3_score_formula_amended _ 0 (by decide)

/-- **C8.** Tasks identical except for deadlines that both lie in the past
receive equal scores — the deadline component is the fixed constant `2`
regardless of how overdue — and a task whose deadline is exactly the current
time is not overdue: its `daysUntilDeadline` is `0` and its deadline component
is the weight times an urgency of `1.0`. -/
theorem C8_overdue_and_boundary :
    (∀ (t : Task) (d1 d2 now : Int), d1 < now → d2 < now →
        calculateTaskScore { t with deadline := some d1 } now =
          calculateTaskScore { t with deadline := some d2 } now) ∧
      (∀ d now : Int, d < now → deadlineScoreOf (some d) now = 2) ∧
      (∀ now : Int, deadlineDays (some now) now = some 0 ∧
        deadlineScoreOf (some now) now = wD * 1) := by
  have hover : ∀ d now : Int, d < now → deadlineScoreOf (some d) now = 2 := by
    intro d now hd
    have hdays : (d - now).fdiv 1440 < 0 := (fdiv_1440_neg_iff _).mpr (by omega)
    simp only [deadlineScoreOf, deadlineDays]
    rw [if_neg (show ¬ (d - now).fdiv 1440 ≥ 0 by omega)]
  refine ⟨?_, hover, ?_⟩
  · intro t d1 d2 now h1 h2
    simp only [calculateTaskScore]
    rw [hover d1 now h1, hover d2 now h2]
  · intro now
    constructor
    · simp [deadlineDays]
    · simp only [deadlineScoreOf, deadlineDays, Option.map_some, sub_self]
      norm_num

/-- Witness for C8 at concrete inputs. -/
theorem C8_overdue_and_boundary_witness :
    calculateTaskScore ⟨"a", "a", 60, "low", "high", "Work", some (-1440)⟩ 0 =
        calculateTaskScore ⟨"a", "a", 60, "low", "high", "Work",
          some (-99999)⟩ 0 ∧
      deadlineScoreOf (some (-10)) 0 = 2 := by
  constructor
  · exact C8_overdue_and_boundary.1
      ⟨"a", "a", 60, "low", "high", "Work", none⟩ (-1440) (-99999) 0
      (by decide) (by decide)
  · exact C8_overdue_and_boundary.2.1 (-10) 0 (by decide)

/-! ## Greedy Allocator: `schedule_tasks` (source lines 1160–1260)

The `existing_tasks` parameter of the source function is dead (the block using
it is commented out, lines 1179–1189), so it is omitted here. -/

/-- One entry of `scheduled_tasks` (source lines 1247–1252). -/
structure ScheduledPart where
  taskId : String
  taskName : String
  startTime : Int
  endTime : Int
deriving Repr, DecidableEq

/-- The conflict check against the occupied set (source lines 1212–1215):
`any(occupied_start < slot_end and occupied_end > slot_start ...)`. -/
def conflictsWithOccupied (occupied : List TimeRange) (s e : Int) : Bool :=
  occupied.any fun o => decide (o.1 < e ∧ o.2 > s)

/-- First-match association-list lookup, modelling a Python dict read. -/
def assocLookup {α : Type} (k : String) : List (String × α) → Option α
  | [] => none
  | (k', v) :: rest => if k' = k then some v else assocLookup k rest

/-- The inner loop over one day's sorted slots (source lines 1205–1236):
returns the parts scheduled from this day, the grown occupied list, and the
remaining minutes.  A slot is skipped when empty or conflicting; a slot that
fits the whole remainder is cut to `[start, start+remaining)` and ends the
loop; otherwise the whole slot is consumed and the walk continues. -/
def walkSlots : Int → List TimeRange → List TimeRange →
    List TimeRange × List TimeRange × Int
  | rem, [], occ => ([], occ, rem)
  | rem, (s, e) :: rest, occ =>
      if e - s ≤ 0 then walkSlots rem rest occ
      else if conflictsWithOccupied occ s e then walkSlots rem rest occ
      else if e - s ≥ rem then ([(s, s + rem)], occ ++ [(s, s + rem)], 0)
      else
        let r := walkSlots (rem - (e - s)) rest (occ ++ [(s, e)])
        ((s, e) :: r.1, r.2.1, r.2.2)

/-- The loop over a task's candidate days (source lines 1201–1239), sorting
each day's slots by start time and stopping once the remainder reaches zero. -/
def walkDays : Int → List (String × List TimeRange) → List TimeRange →
    List TimeRange × List TimeRange × Int
  | rem, [], occ => ([], occ, rem)
  | rem, (_, slots) :: rest, occ =>
      let r1 := walkSlots rem (sortByStart slots) occ
      if r1.2.2 = 0 then r1
      else
        let r2 := walkDays r1.2.2 rest r1.2.1
        (r1.1 ++ r2.1, r2.2.1, r2.2.2)

/-- The duplicate-filtering append into `scheduled_tasks`
(source lines 1242–1252). -/
def appendScheduledParts (tid tname : String) :
    List TimeRange → List ScheduledPart → List ScheduledPart
  | [], sched => sched
  | p :: ps, sched =>
      if sched.any fun t => decide (t.startTime = p.1 ∧ t.endTime = p.2) then
        appendScheduledParts tid tname ps sched
      else appendScheduledParts tid tname ps (sched ++ [⟨tid, tname, p.1, p.2⟩])

/-- Processing of one task (source lines 1174–1258): tasks absent from
`available_timeslots` are skipped; otherwise the candidate days are walked and
the scheduled parts are appended. -/
def scheduleOneTask
    (availableTimeslots : List (String × List (String × List TimeRange)))
    (state : List ScheduledPart × List TimeRange) (task : Task) :
    List ScheduledPart × List TimeRange :=
  match assocLookup task.id availableTimeslots with
  | none => state
  | some taskSlots =>
      let r := walkDays task.estimatedTime taskSlots state.2
      (appendScheduledParts task.id task.name r.1 state.1, r.2.1)

/-- `schedule_tasks` (source lines 1160–1260), returning the scheduled parts
and the occupied list it grew (the source mutates `occupied_slots` in
place). -/
def scheduleTasks (tasks : List Task)
    (availableTimeslots : List (String × List (String × List TimeRange)))
    (occupiedSlots : List TimeRange) :
    List ScheduledPart × List TimeRange :=
  tasks.foldl (scheduleOneTask availableTimeslots) ([], occupiedSlots)

/-! ### Score-descending processing order (`__main__`, source lines 1474–1476)

`scored_tasks.sort(key=lambda x: x[1], reverse=True)` is a stable descending
sort on the score. -/

/-- Stable descending insertion by score (ties keep first-seen order). -/
def insertByScoreDesc (x : Task × ℚ) : List (Task × ℚ) → List (Task × ℚ)
  | [] => [x]
  | y :: ys => if x.2 ≥ y.2 then x :: y :: ys else y :: insertByScoreDesc x ys

/-- The `__main__` sort of `scored_tasks` (source line 1476). -/
def sortByScoreDesc (l : List (Task × ℚ)) : List (Task × ℚ) :=
  l.foldr insertByScoreDesc []

/-- The `__main__` pipeline from parsed tasks to the scheduler's input order
(source lines 1475–1499): score, sort descending, drop the scores. -/
def prioritizedOrder (tasks : List Task) (now : Int) : List Task :=
  (sortByScoreDesc (tasks.map fun t => (t, calculateTaskScore t now))).map
    Prod.fst

/-! ### Allocator invariants (claim C4) -/

/-- Non-overlap of two time ranges, as the negation of the source's conflict
test; it is symmetric in its arguments. -/
def noOverlap (p q : TimeRange) : Prop := ¬ (p.1 < q.2 ∧ q.1 < p.2)

theorem noOverlap_symm {p q : TimeRange} (h : noOverlap p q) : noOverlap q p :=
  fun hc => h ⟨hc.2, hc.1⟩

theorem conflictsWithOccupied_eq_false {occupied : List TimeRange} {s e : Int}
    (h : conflictsWithOccupied occupied s e = false) :
    ∀ q ∈ occupied, ¬ (q.1 < e ∧ q.2 > s) := by
  intro q hq hc
  rw [conflictsWithOccupied] at h
  have := List.any_eq_false.mp h q hq
  simp only [decide_eq_true_eq] at this
  exact this hc

/-- The slot walk appends exactly its scheduled parts to the occupied list. -/
theorem walkSlots_occ (slots : List TimeRange) :
    ∀ (rem : Int) (occ : List TimeRange),
      (walkSlots rem slots occ).2.1 = occ ++ (walkSlots rem slots occ).1 := by
  induction slots with
  | nil => intro rem occ; simp [walkSlots]
  | cons slot rest ih =>
      intro rem occ
      obtain ⟨s, e⟩ := slot
      rw [walkSlots]
      by_cases h1 : e - s ≤ 0
      · rw [if_pos h1]; exact ih rem occ
      · rw [if_neg h1]
        by_cases h2 : conflictsWithOccupied occ s e
        · rw [if_pos h2]; exact ih rem occ
        · rw [if_neg h2]
          by_cases h3 : e - s ≥ rem
          · rw [if_pos h3]
          · rw [if_neg h3]
            simp only []
            rw [ih (rem - (e - s)) (occ ++ [(s, e)])]
            simp

/-- Every part scheduled by the slot walk is disjoint (in the source's strict
sense) from every starting occupied interval, and the parts are pairwise
disjoint. -/
theorem walkSlots_disjoint (slots : List TimeRange) :
    ∀ (rem : Int) (occ : List TimeRange),
      (∀ p ∈ (walkSlots rem slots occ).1, ∀ q ∈ occ, noOverlap q p) ∧
        (walkSlots rem slots occ).1.Pairwise noOverlap := by
  induction slots with
  | nil => intro rem occ; constructor
           · intro p hp; cases hp
           · simp [walkSlots]
  | cons slot rest ih =>
      intro rem occ
      obtain ⟨s, e⟩ := slot
      rw [walkSlots]
      by_cases h1 : e - s ≤ 0
      · rw [if_pos h1]; exact ih rem occ
      · rw [if_neg h1]
        by_cases h2 : conflictsWithOccupied occ s e
        · rw [if_pos h2]; exact ih rem occ
        · rw [if_neg h2]
          have hnc := conflictsWithOccupied_eq_false (Bool.eq_false_iff.mpr h2)
          by_cases h3 : e - s ≥ rem
          · rw [if_pos h3]
            constructor
            · intro p hp q hq
              rcases List.mem_singleton.mp hp with rfl
              intro hc
              exact hnc q hq ⟨by omega, by omega⟩
            · simp
          · rw [if_neg h3]
            simp only []
            obtain ⟨hdisj, hpair⟩ := ih (rem - (e - s)) (occ ++ [(s, e)])
            constructor
            · intro p hp q hq
              rcases List.mem_cons.mp hp with rfl | hp'
              · intro hc
                exact hnc q hq ⟨hc.1, hc.2⟩
              · exact hdisj p hp' q (List.mem_append.mpr (Or.inl hq))
            · refine List.pairwise_cons.mpr ⟨?_, hpair⟩
              intro p hp
              exact hdisj p hp (s, e)
                (List.mem_append.mpr (Or.inr (List.mem_singleton.mpr rfl)))

/-- The day walk appends exactly its scheduled parts to the occupied list. -/
theorem walkDays_occ (days : List (String × List TimeRange)) :
    ∀ (rem : Int) (occ : List TimeRange),
      (walkDays rem days occ).2.1 = occ ++ (walkDays rem days occ).1 := by
  induction days with
  | nil => intro rem occ; simp [walkDays]
  | cons day rest ih =>
      intro rem occ
      obtain ⟨d, slots⟩ := day
      rw [walkDays]
      by_cases h0 : (walkSlots rem (sortByStart slots) occ).2.2 = 0
      · rw [if_pos h0]
        exact walkSlots_occ (sortByStart slots) rem occ
      · rw [if_neg h0]
        simp only []
        rw [ih _ _, walkSlots_occ (sortByStart slots) rem occ]
        simp

/-- Parts scheduled by the day walk are disjoint from the starting occupied
set and pairwise disjoint. -/
theorem walkDays_disjoint (days : List (String × List TimeRange)) :
    ∀ (rem : Int) (occ : List TimeRange),
      (∀ p ∈ (walkDays rem days occ).1, ∀ q ∈ occ, noOverlap q p) ∧
        (walkDays rem days occ).1.Pairwise noOverlap := by
  induction days with
  | nil => intro rem occ; constructor
           · intro p hp; cases hp
           · simp [walkDays]
  | cons day rest ih =>
      intro rem occ
      obtain ⟨d, slots⟩ := day
      rw [walkDays]
      by_cases h0 : (walkSlots rem (sortByStart slots) occ).2.2 = 0
      · rw [if_pos h0]
        exact walkSlots_disjoint (sortByStart slots) rem occ
      · rw [if_neg h0]
        simp only []
        obtain ⟨hd1, hp1⟩ := walkSlots_disjoint (sortByStart slots) rem occ
        obtain ⟨hd2, hp2⟩ := ih (walkSlots rem (sortByStart slots) occ).2.2
          (walkSlots rem (sortByStart slots) occ).2.1
        constructor
        · intro p hp q hq
          rcases List.mem_append.mp hp with hp' | hp'
          · exact hd1 p hp' q hq
          · refine hd2 p hp' q ?_
            rw [walkSlots_occ]
            exact List.mem_append.mpr (Or.inl hq)
        · rw [List.pairwise_append]
          refine ⟨hp1, hp2, ?_⟩
          intro a ha b hb
          refine hd2 b hb a ?_
          rw [walkSlots_occ]
          exact List.mem_append.mpr (Or.inr ha)

/-- Non-overlap of two scheduled entries, in the source's strict sense. -/
def entryNoOverlap (a b : ScheduledPart) : Prop :=
  ¬ (a.startTime < b.endTime ∧ b.startTime < a.endTime)

theorem appendScheduledParts_inv (tid tname : String) :
    ∀ (parts : List TimeRange) (sched : List ScheduledPart),
      (∀ p ∈ parts, ∀ t ∈ sched, noOverlap (t.startTime, t.endTime) p) →
      parts.Pairwise noOverlap →
      sched.Pairwise entryNoOverlap →
      (appendScheduledParts tid tname parts sched).Pairwise entryNoOverlap ∧
        ∀ t ∈ appendScheduledParts tid tname parts sched,
          t ∈ sched ∨ ((t.startTime, t.endTime) ∈ parts ∧ t.taskId = tid) := by
  intro parts
  induction parts with
  | nil =>
      intro sched _ _ hs
      exact ⟨hs, fun t ht => Or.inl ht⟩
  | cons p ps ih =>
      intro sched hdisj hpair hs
      rw [appendScheduledParts]
      rcases List.pairwise_cons.mp hpair with ⟨hp_ps, hps⟩
      by_cases hdup : sched.any fun t => decide (t.startTime = p.1 ∧ t.endTime = p.2)
      · rw [if_pos hdup]
        obtain ⟨h1, h2⟩ := ih sched
          (fun p' hp' t ht => hdisj p' (List.mem_cons_of_mem p hp') t ht) hps hs
        refine ⟨h1, fun t ht => ?_⟩
        rcases h2 t ht with h | ⟨hmem, hid⟩
        · exact Or.inl h
        · exact Or.inr ⟨List.mem_cons_of_mem p hmem, hid⟩
      · rw [if_neg hdup]
        have hs' : (sched ++ [(⟨tid, tname, p.1, p.2⟩ : ScheduledPart)]).Pairwise
            entryNoOverlap := by
          rw [List.pairwise_append]
          refine ⟨hs, by simp, ?_⟩
          intro t ht x hx
          rcases List.mem_singleton.mp hx with rfl
          exact hdisj p (List.mem_cons_self p ps) t ht
        have hdisj' : ∀ p' ∈ ps,
            ∀ t ∈ sched ++ [(⟨tid, tname, p.1, p.2⟩ : ScheduledPart)],
              noOverlap (t.startTime, t.endTime) p' := by
          intro p' hp' t ht
          rcases List.mem_append.mp ht with ht' | ht'
          · exact hdisj p' (List.mem_cons_of_mem p hp') t ht'
          · rcases List.mem_singleton.mp ht' with rfl
            exact hp_ps p' hp'
        obtain ⟨h1, h2⟩ := ih _ hdisj' hps hs'
        refine ⟨h1, fun t ht => ?_⟩
        rcases h2 t ht with h | ⟨hmem, hid⟩
        · rcases List.mem_append.mp h with h' | h'
          · exact Or.inl h'
          · rcases List.mem_singleton.mp h' with rfl
            exact Or.inr ⟨List.mem_cons_self _ _, rfl⟩
        · exact Or.inr ⟨List.mem_cons_of_mem p hmem, hid⟩

theorem appendScheduledParts_prefix (tid tname : String) :
    ∀ (parts : List TimeRange) (sched : List ScheduledPart),
      ∃ extra, appendScheduledParts tid tname parts sched = sched ++ extra := by
  intro parts
  induction parts with
  | nil => intro sched; exact ⟨[], by simp [appendScheduledParts]⟩
  | cons p ps ih =>
      intro sched
      rw [appendScheduledParts]
      by_cases hdup : sched.any fun t => decide (t.startTime = p.1 ∧ t.endTime = p.2)
      · rw [if_pos hdup]; exact ih sched
      · rw [if_neg hdup]
        obtain ⟨extra, hx⟩ := ih (sched ++ [⟨tid, tname, p.1, p.2⟩])
        exact ⟨⟨tid, tname, p.1, p.2⟩ :: extra, by rw [hx]; simp⟩

/-- The allocator's running state invariant: every scheduled entry's interval
is in the occupied list, the occupied list extends the initial one, the
entries are pairwise non-overlapping, and every entry avoids every initial
occupied interval. -/
def schedInv (occStart : List TimeRange)
    (state : List ScheduledPart × List TimeRange) : Prop :=
  (∀ t ∈ state.1, (t.startTime, t.endTime) ∈ state.2) ∧
    (∃ suffix, state.2 = occStart ++ suffix) ∧
    state.1.Pairwise entryNoOverlap ∧
    (∀ t ∈ state.1, ∀ q ∈ occStart, noOverlap q (t.startTime, t.endTime))

theorem scheduleOneTask_inv
    (avail : List (String × List (String × List TimeRange)))
    (occStart : List TimeRange) (task : Task)
    (state : List ScheduledPart × List TimeRange) (h : schedInv occStart state) :
    schedInv occStart (scheduleOneTask avail state task) := by
  obtain ⟨hin, ⟨suffix, hsuf⟩, hpw, hdisj0⟩ := h
  rw [scheduleOneTask]
  cases hlk : assocLookup task.id avail with
  | none => exact ⟨hin, ⟨suffix, hsuf⟩, hpw, hdisj0⟩
  | some taskSlots =>
      simp only []
      obtain ⟨hd, hp⟩ := walkDays_disjoint taskSlots task.estimatedTime state.2
      have hocc := walkDays_occ taskSlots task.estimatedTime state.2
      obtain ⟨h1, h2⟩ := appendScheduledParts_inv task.id task.name
        (walkDays task.estimatedTime taskSlots state.2).1 state.1
        (fun p hp' t ht => hd p hp' (t.startTime, t.endTime) (hin t ht)) hp hpw
      refine ⟨?_, ?_, h1, ?_⟩
      · intro t ht
        rw [hocc]
        rcases h2 t ht with h' | ⟨hmem, _⟩
        · exact List.mem_append.mpr (Or.inl (hin t h'))
        · exact List.mem_append.mpr (Or.inr hmem)
      · refine ⟨suffix ++ (walkDays task.estimatedTime taskSlots state.2).1, ?_⟩
        rw [hocc, hsuf, List.append_assoc]
      · intro t ht q hq
        rcases h2 t ht with h' | ⟨hmem, _⟩
        · exact hdisj0 t h' q hq
        · exact hd _ hmem q (by rw [hsuf]; exact List.mem_append.mpr (Or.inl hq))

theorem scheduleTasks_inv (tasks : List Task)
    (avail : List (String × List (String × List TimeRange)))
    (occStart : List TimeRange) :
    schedInv occStart (scheduleTasks tasks avail occStart) := by
  have hgen : ∀ (ts : List Task) (state : List ScheduledPart × List TimeRange),
      schedInv occStart state →
      schedInv occStart (ts.foldl (scheduleOneTask avail) state) := by
    intro ts
    induction ts with
    | nil => intro state h; exact h
    | cons t ts' ih =>
        intro state h
        exact ih _ (scheduleOneTask_inv avail occStart t state h)
  exact hgen tasks ([], occStart)
    ⟨fun t ht => absurd ht (List.not_mem_nil t), ⟨[], by simp⟩, by simp,
      fun t ht => absurd ht (List.not_mem_nil t)⟩

theorem scheduleOneTask_prefix
    (avail : List (String × List (String × List TimeRange)))
    (state : List ScheduledPart × List TimeRange) (task : Task) :
    ∃ extra, (scheduleOneTask avail state task).1 = state.1 ++ extra := by
  rw [scheduleOneTask]
  cases hlk : assocLookup task.id avail with
  | none => exact ⟨[], by simp⟩
  | some taskSlots =>
      exact appendScheduledParts_prefix task.id task.name _ state.1

theorem insertByScoreDesc_perm (x : Task × ℚ) (l : List (Task × ℚ)) :
    (insertByScoreDesc x l).Perm (x :: l) := by
  induction l with
  | nil => exact List.Perm.refl _
  | cons y ys ih =>
      by_cases h : x.2 ≥ y.2
      · simp [insertByScoreDesc, h]
      · simp only [insertByScoreDesc, h, if_false]
        exact ((ih.cons y).trans (List.Perm.swap x y ys))

theorem insertByScoreDesc_pairwise (x : Task × ℚ) (l : List (Task × ℚ))
    (h : l.Pairwise (fun a b : Task × ℚ => b.2 ≤ a.2)) :
    (insertByScoreDesc x l).Pairwise (fun a b : Task × ℚ => b.2 ≤ a.2) := by
  induction l with
  | nil => simp [insertByScoreDesc]
  | cons y ys ih =>
      rcases List.pairwise_cons.mp h with ⟨hy, hys⟩
      by_cases hxy : x.2 ≥ y.2
      · simp only [insertByScoreDesc, if_pos hxy]
        refine List.pairwise_cons.mpr ⟨?_, h⟩
        intro b hb
        rcases List.mem_cons.mp hb with rfl | hb
        · exact hxy
        · exact le_trans (hy b hb) hxy
      · simp only [insertByScoreDesc, if_neg hxy]
        refine List.pairwise_cons.mpr ⟨?_, ih hys⟩
        intro b hb
        rcases List.mem_cons.mp ((insertByScoreDesc_perm x ys).mem_iff.mp hb) with
          rfl | hb'
        · exact le_of_lt (lt_of_not_le hxy)
        · exact hy b hb'

/-- The `__main__` sort really orders the scored tasks by descending score. -/
theorem sortByScoreDesc_pairwise (l : List (Task × ℚ)) :
    (sortByScoreDesc l).Pairwise (fun a b : Task × ℚ => b.2 ≤ a.2) := by
  induction l with
  | nil => simp [sortByScoreDesc]
  | cons x xs ih => exact insertByScoreDesc_pairwise x (sortByScoreDesc xs) ih

/-- The two-task, one-slot scenario: with scores `s1 > s2`, either input
order, and a single candidate slot `[a, b)` offered to both tasks, the
higher-scoring task gets `[a, a + duration)` and the other task gets
nothing. -/
theorem scheduleTasks_two_tasks (t1 t2 : Task) (d : String) (a b now : Int)
    (hne : t1.id ≠ t2.id)
    (hscore : calculateTaskScore t2 now < calculateTaskScore t1 now)
    (hpos1 : 0 < t1.estimatedTime)
    (hfits : t1.estimatedTime ≤ b - a)
    (l : List Task) (hl : l = [t1, t2] ∨ l = [t2, t1]) :
    (scheduleTasks (prioritizedOrder l now)
        [(t1.id, [(d, [(a, b)])]), (t2.id, [(d, [(a, b)])])] []).1 =
      [⟨t1.id, t1.name, a, a + t1.estimatedTime⟩] := by
  have horder : prioritizedOrder l now = [t1, t2] := by
    rcases hl with rfl | rfl
    · simp only [prioritizedOrder, List.map, sortByScoreDesc, List.foldr,
        insertByScoreDesc]
      rw [if_pos (le_of_lt hscore)]
      rfl
    · simp only [prioritizedOrder, List.map, sortByScoreDesc, List.foldr,
        insertByScoreDesc]
      rw [if_neg (not_le_of_lt hscore)]
      rfl
  rw [horder]
  have hlk1 : assocLookup t1.id
      [(t1.id, [(d, [(a, b)])]), (t2.id, [(d, [(a, b)])])] =
        some [(d, [(a, b)])] := by
    rw [assocLookup, if_pos rfl]
  have hlk2 : assocLookup t2.id
      [(t1.id, [(d, [(a, b)])]), (t2.id, [(d, [(a, b)])])] =
        some [(d, [(a, b)])] := by
    rw [assocLookup, if_neg hne, assocLookup, if_pos rfl]
  have hws1 : walkSlots t1.estimatedTime [(a, b)] [] =
      ([(a, a + t1.estimatedTime)], [(a, a + t1.estimatedTime)], 0) := by
    rw [walkSlots, if_neg (by omega : ¬ b - a ≤ 0)]
    rw [if_neg (by simp [conflictsWithOccupied] : ¬ (conflictsWithOccupied [] a b = true))]
    rw [if_pos (by omega : b - a ≥ t1.estimatedTime)]
    simp
  have hstep1 : scheduleOneTask [(t1.id, [(d, [(a, b)])]), (t2.id, [(d, [(a, b)])])]
      ([], []) t1 =
      ([⟨t1.id, t1.name, a, a + t1.estimatedTime⟩], [(a, a + t1.estimatedTime)]) := by
    rw [scheduleOneTask, hlk1]
    simp only [walkDays, sortByStart, List.foldr, insertByStart, hws1]
    simp [appendScheduledParts]
  have hws2 : walkSlots t2.estimatedTime [(a, b)] [(a, a + t1.estimatedTime)] =
      ([], [(a, a + t1.estimatedTime)], t2.estimatedTime) := by
    rw [walkSlots, if_neg (by omega : ¬ b - a ≤ 0)]
    rw [if_pos (by
      simp only [conflictsWithOccupied, List.any_cons, List.any_nil,
        Bool.or_false, decide_eq_true_eq]
      omega)]
    rw [walkSlots]
  have hstep2 : scheduleOneTask [(t1.id, [(d, [(a, b)])]), (t2.id, [(d, [(a, b)])])]
      ([⟨t1.id, t1.name, a, a + t1.estimatedTime⟩], [(a, a + t1.estimatedTime)]) t2 =
      ([⟨t1.id, t1.name, a, a + t1.estimatedTime⟩], [(a, a + t1.estimatedTime)]) := by
    rw [scheduleOneTask, hlk2]
    simp only [walkDays, sortByStart, List.foldr, insertByStart, hws2]
    by_cases hz : t2.estimatedTime = 0
    · rw [if_pos hz]
      simp [appendScheduledParts]
    · rw [if_neg hz]
      simp [walkDays, appendScheduledParts]
  rw [scheduleTasks, List.foldl_cons, hstep1, List.foldl_cons, hstep2, List.foldl_nil]

/-- **C4.** Tasks are processed in descending score order (the `__main__`
sort is descending on the score); in the two-task single-slot scenario with
`s1 > s2` the allocator gives the slot to the higher-scoring task and the
lower-scoring task ends with no allocation; all allocations ever produced are
pairwise non-overlapping and avoid every initial occupied interval (so a
later, lower-priority task never overlaps an earlier allocation); and
processing a further task only appends to the earlier allocations, never
altering them. -/
theorem C4_priority_allocation :
    (∀ l : List (Task × ℚ),
        (sortByScoreDesc l).Pairwise (fun a b : Task × ℚ => b.2 ≤ a.2)) ∧
      (∀ (t1 t2 : Task) (d : String) (a b now : Int), t1.id ≠ t2.id →
        calculateTaskScore t2 now < calculateTaskScore t1 now →
        0 < t1.estimatedTime → t1.estimatedTime ≤ b - a →
        ∀ l : List Task, (l = [t1, t2] ∨ l = [t2, t1]) →
        (scheduleTasks (prioritizedOrder l now)
            [(t1.id, [(d, [(a, b)])]), (t2.id, [(d, [(a, b)])])] []).1 =
          [⟨t1.id, t1.name, a, a + t1.estimatedTime⟩]) ∧
      (∀ (tasks : List Task)
        (avail : List (String × List (String × List TimeRange)))
        (occ : List TimeRange),
        (scheduleTasks tasks avail occ).1.Pairwise entryNoOverlap ∧
          ∀ t ∈ (scheduleTasks tasks avail occ).1, ∀ q ∈ occ,
            noOverlap q (t.startTime, t.endTime)) ∧
      (∀ (tasks : List Task) (t : Task)
        (avail : List (String × List (String × List TimeRange)))
        (occ : List TimeRange),
        ∃ extra, (scheduleTasks (tasks ++ [t]) avail occ).1 =
          (scheduleTasks tasks avail occ).1 ++ extra) := by
  refine ⟨sortByScoreDesc_pairwise, ?_, ?_, ?_⟩
  · intro t1 t2 d a b now hne hscore hpos hfits l hl
    exact scheduleTasks_two_tasks t1 t2 d a b now hne hscore hpos hfits l hl
  · intro tasks avail occ
    obtain ⟨_, _, hpw, hd⟩ := scheduleTasks_inv tasks avail occ
    exact ⟨hpw, hd⟩
  · intro tasks t avail occ
    have hsplit : scheduleTasks (tasks ++ [t]) avail occ =
        scheduleOneTask avail (scheduleTasks tasks avail occ) t := by
      rw [scheduleTasks, scheduleTasks, List.foldl_append, List.foldl_cons,
        List.foldl_nil]
    rw [hsplit]
    exact scheduleOneTask_prefix avail (scheduleTasks tasks avail occ) t

/-- Witness for C4 at two concrete tasks sharing one slot. -/
theorem C4_priority_allocation_witness :
    (scheduleTasks
        (prioritizedOrder
          [⟨"A", "a", 30, "medium", "high", "Work", none⟩,
            ⟨"B", "b", 30, "medium", "low", "Work", none⟩] 0)
        [("A", [("d", [(0, 60)])]), ("B", [("d", [(0, 60)])])] []).1 =
      [⟨"A", "a", 0, 30⟩] := by
  have h1 : impactMapping "high" = 3 := by decide
  have h2 : impactMapping "low" = 1 := by decide
  have h3 : energyRequired "medium" = 2 := by decide
  have h4 : deadlineScoreOf none 0 = 0 := by decide
  have hs : calculateTaskScore ⟨"B", "b", 30, "medium", "low", "Work", none⟩ 0 <
      calculateTaskScore ⟨"A", "a", 30, "medium", "high", "Work", none⟩ 0 := by
    simp only [calculateTaskScore, maxTime, maximumEnergy, wT, wE, wI,
      h1, h2, h3, h4]
    norm_num
  have := C4_priority_allocation.2.1
    ⟨"A", "a", 30, "medium", "high", "Work", none⟩
    ⟨"B", "b", 30, "medium", "low", "Work", none⟩ "d" 0 60 0
    (by decide) hs (by decide) (by decide)
    [⟨"A", "a", 30, "medium", "high", "Work", none⟩,
      ⟨"B", "b", 30, "medium", "low", "Work", none⟩] (Or.inl rfl)
  simpa using this

/-! ## `merge_scheduled_tasks` (source lines 1262–1297)

The source sorts by `(task_name, start_time.date(), start_time)` and merges a
fragment into the current one when the **names** match, the dates match and
the start meets the current end — the task id takes no part in the decision.
It also appends each merged allocation to the global `occupied_slots`, which
is passed explicitly here. -/

/-- `start_time.date()` for minute-valued times: the day index. -/
def dateOf (t : Int) : Int := t.fdiv 1440

/-- The sort key order `(task_name, start_time.date(), start_time)` (source
line 1273), as Python compares key tuples. -/
def schedKeyLE (x y : ScheduledPart) : Prop :=
  x.taskName < y.taskName ∨
    (x.taskName = y.taskName ∧
      (dateOf x.startTime < dateOf y.startTime ∨
        (dateOf x.startTime = dateOf y.startTime ∧ x.startTime ≤ y.startTime)))

instance (x y : ScheduledPart) : Decidable (schedKeyLE x y) :=
  inferInstanceAs (Decidable (_ ∨ _))

/-- Stable insertion for the sort of source line 1273. -/
def insertSched (x : ScheduledPart) : List ScheduledPart → List ScheduledPart
  | [] => [x]
  | y :: ys => if schedKeyLE x y then x :: y :: ys else y :: insertSched x ys

/-- `scheduled_tasks.sort(key=lambda x: (x["task_name"], x["start_time"].date(),
x["start_time"]))` (source line 1273). -/
def sortScheduled (l : List ScheduledPart) : List ScheduledPart :=
  l.foldr insertSched []

/-- The merging loop (source lines 1276–1295), with the current fragment, the
remaining sorted fragments and the global occupied list. -/
def mergeLoop : ScheduledPart → List ScheduledPart → List TimeRange →
    List ScheduledPart × List TimeRange
  | current, [], occ =>
      ([current], occ ++ [(current.startTime, current.endTime)])
  | current, nxt :: rest, occ =>
      if nxt.taskName = current.taskName ∧
          dateOf nxt.startTime = dateOf current.startTime ∧
          nxt.startTime = current.endTime then
        mergeLoop { current with endTime := nxt.endTime } rest occ
      else
        let r := mergeLoop nxt rest (occ ++ [(current.startTime, current.endTime)])
        (current :: r.1, r.2)

/-- `merge_scheduled_tasks` (source lines 1262–1297). -/
def mergeScheduledTasks (scheduledTasks : List ScheduledPart)
    (occupiedSlots : List TimeRange) : List ScheduledPart × List TimeRange :=
  match sortScheduled scheduledTasks with
  | [] => ([], occupiedSlots)
  | c :: rest => mergeLoop c rest occupiedSlots

/-- **C10.** `merge_scheduled_tasks` merges on task name and date, not task
id: two adjacent same-day fragments with equal names but distinct task ids are
merged into a single allocation that carries only the first fragment's task
id, so the second task's id disappears from the merged output. -/
theorem C10_merge_keyed_on_name_and_date (f1 f2 : ScheduledPart)
    (occ : List TimeRange)
    (hid : f1.taskId ≠ f2.taskId)
    (hname : f1.taskName = f2.taskName)
    (hdate : dateOf f1.startTime = dateOf f2.startTime)
    (hadj : f1.endTime = f2.startTime)
    (hwf : f1.startTime ≤ f1.endTime) :
    (mergeScheduledTasks [f1, f2] occ).1 =
        [⟨f1.taskId, f1.taskName, f1.startTime, f2.endTime⟩] ∧
      ∀ t ∈ (mergeScheduledTasks [f1, f2] occ).1, t.taskId ≠ f2.taskId := by
  have hkey : schedKeyLE f1 f2 :=
    Or.inr ⟨hname, Or.inr ⟨hdate, by omega⟩⟩
  have hsort : sortScheduled [f1, f2] = [f1, f2] := by
    simp only [sortScheduled, List.foldr, insertSched, if_pos hkey]
  have hcond : f2.taskName = f1.taskName ∧
      dateOf f2.startTime = dateOf f1.startTime ∧ f2.startTime = f1.endTime :=
    ⟨hname.symm, hdate.symm, hadj.symm⟩
  have hmerge : (mergeScheduledTasks [f1, f2] occ).1 =
      [⟨f1.taskId, f1.taskName, f1.startTime, f2.endTime⟩] := by
    rw [mergeScheduledTasks, hsort]
    show (mergeLoop f1 [f2] occ).1 = _
    rw [mergeLoop, if_pos hcond, mergeLoop]
  refine ⟨hmerge, ?_⟩
  intro t ht
  rw [hmerge] at ht
  rcases List.mem_singleton.mp ht with rfl
  exact hid

/-- Witness for C10: fragments 09:00–09:20 and 09:20–09:40 of two different
task ids with the same display name merge into one allocation carrying only
the first id. -/
theorem C10_merge_keyed_on_name_and_date_witness :
    (mergeScheduledTasks [⟨"id1", "write report", 540, 560⟩,
        ⟨"id2", "write report", 560, 580⟩] []).1 =
      [⟨"id1", "write report", 540, 580⟩] :=
  (C10_merge_keyed_on_name_and_date ⟨"id1", "write report", 540, 560⟩
    ⟨"id2", "write report", 560, 580⟩ [] (by decide) rfl (by decide) rfl
    (by decide)).1

/-! ## The fragmented-window scenario of claim C1

Claimed: window 09:00–10:30 on day 2 (minutes 3420–3510 from the horizon's
midnight origin), occupied 09:20–09:40 (3440–3460), task of 60 minutes,
medium energy, work scope, deadline at day 3 (4320).  The claim expects two
candidates (3420–3440 and 3460–3510) and two scheduled fragments.  The code's
subtraction `elif` chain keeps only the left remainder of a window split by an
interior occupied interval, so the resolver returns the single candidate
(3420, 3440), the allocator schedules the single 20-minute fragment
(3420, 3440) — 40 minutes stay unscheduled — and the merge step returns that
single fragment unchanged. -/
theorem C1_scenario_evaluation :
    getAvailableTimeslots [("day2", [⟨(3420, 3510), "Work", "high"⟩])]
        [(3440, 3460)] "Work" "medium" (some 4320) 0 (some 60) =
      .ok [("day2", [(3420, 3440)])] ∧
      (scheduleTasks [⟨"T1", "task", 60, "medium", "low", "Work", some 4320⟩]
          [("T1", [("day2", [(3420, 3440)])])] [(3440, 3460)]).1 =
        [⟨"T1", "task", 3420, 3440⟩] ∧
      (mergeScheduledTasks [⟨"T1", "task", 3420, 3440⟩]
          [(3440, 3460), (3420, 3440)]).1 = [⟨"T1", "task", 3420, 3440⟩] := by
  refine ⟨rfl, rfl, rfl⟩

/-! ## Energy Profile Store: `fetch_working_hours_and_energy_levels`
(source lines 420–504) and the `__main__` guard (source lines 1461–1463)

Dates are day offsets `0‥27` from "today"; a slot on day `i` at `h:m` is
minute `i*1440 + h*60 + m`.  `todayWeekday` is `today.weekday()`
(Monday = 0), so day `i` has name `dayNames[(todayWeekday + i) % 7]`. -/

def dayNames : List String :=
  ["Monday", "Tuesday", "Wednesday", "Thursday", "Friday", "Saturday", "Sunday"]

/-- `date.strftime("%A")` for the day `todayWeekday + i` of the horizon. -/
def dayNameOf (todayWeekday i : Nat) : String :=
  dayNames.getD ((todayWeekday + i) % 7) ""

/-- `datetime.strptime(s, "%H:%M")` reduced to minutes; `none` models the
`ValueError` the source catches to skip a date (source lines 487–492). -/
def parseHM (s : String) : Option Int :=
  match s.splitOn ":" with
  | [h, m] =>
      match h.toNat?, m.toNat? with
      | some hh, some mm =>
          if hh < 24 ∧ mm < 60 then some (hh * 60 + mm) else none
      | _, _ => none
  | _ => none

/-- `convert_energy_level` (source lines 443–455). -/
def convertEnergyLevel (s : String) : String :=
  match s.toInt? with
  | none => "unknown"
  | some v =>
      if 1 ≤ v ∧ v ≤ 3 then "low"
      else if 4 ≤ v ∧ v ≤ 6 then "medium"
      else if 7 ≤ v ∧ v ≤ 10 then "high"
      else "unknown"

/-- Appending one slot to one date's list of the profile. -/
def appendSlotAt (profile : List (Nat × List EnergySlot)) (i : Nat)
    (slot : EnergySlot) : List (Nat × List EnergySlot) :=
  profile.map fun e => if e.1 = i then (e.1, e.2 ++ [slot]) else e

/-- Processing of one sheet row (source lines 466–499).  Rows shorter than 4
cells are ignored; a day name matching no horizon date or a time range
without `" - "` skips the row; a time range splitting into three or more
pieces makes the source's two-variable unpacking raise `ValueError`, which
the outer `except` turns into an empty profile — modelled as `.error ()`.
Each matching date gets the slot unless its `strptime` fails. -/
def addRowToProfile (todayWeekday : Nat) (profile : List (Nat × List EnergySlot))
    (row : List String) : Except Unit (List (Nat × List EnergySlot)) :=
  match row with
  | dayName :: timeRange :: taskType :: energy :: _ =>
      let matching := (List.range 28).filter fun i =>
        dayNameOf todayWeekday i = dayName
      if matching = [] then .ok profile
      else
        match timeRange.splitOn " - " with
        | [st, en] =>
            .ok (matching.foldl
              (fun prof i =>
                match parseHM st, parseHM en with
                | some a, some b =>
                    appendSlotAt prof i
                      ⟨((i : Int) * 1440 + a, (i : Int) * 1440 + b), taskType,
                        convertEnergyLevel energy⟩
                | _, _ => prof)
              profile)
        | [_] => .ok profile
        | _ => .error ()
  | _ => .ok profile

/-- The loop over the sheet's rows (source line 466). -/
def processRows (todayWeekday : Nat) :
    List (Nat × List EnergySlot) → List (List String) →
      Except Unit (List (Nat × List EnergySlot))
  | profile, [] => .ok profile
  | profile, row :: rest =>
      match addRowToProfile todayWeekday profile row with
      | .error e => .error e
      | .ok p => processRows todayWeekday p rest

/-- `fetch_working_hours_and_energy_levels` (source lines 420–504).
`rows = none` models an unreachable sheet: the call raises inside the `try`
and the `except` returns `{}`.  Otherwise the profile is *initialised with
all 28 date keys* (source lines 457–463) before the rows are processed. -/
def fetchWorkingHoursAndEnergyLevels (rows : Option (List (List String)))
    (todayWeekday : Nat) : List (Nat × List EnergySlot) :=
  match rows with
  | none => []
  | some rs =>
      match processRows todayWeekday
          ((List.range 28).map fun i => (i, ([] : List EnergySlot))) rs with
      | .error _ => []
      | .ok p => p

/-- The `__main__` guard (source lines 1461–1463): `if not energy_profile:
raise ValueError(...)` — a Python dict is falsy exactly when it has no keys. -/
def loadEnergyProfile (rows : Option (List (List String))) (todayWeekday : Nat) :
    Except String (List (Nat × List EnergySlot)) :=
  if (fetchWorkingHoursAndEnergyLevels rows todayWeekday).isEmpty then
    .error "No working hours or energy levels found in Google Sheets."
  else .ok (fetchWorkingHoursAndEnergyLevels rows todayWeekday)

/-- **C7 (counterexample).** An *empty* (but reachable) template source does
not yield an empty profile: the profile keeps its 28 initialised date keys,
the `__main__` emptiness guard passes, and the run proceeds to scheduling
instead of aborting. -/
theorem C7_empty_template_counterexample :
    fetchWorkingHoursAndEnergyLevels (some []) 0 ≠ [] ∧
      loadEnergyProfile (some []) 0 =
        .ok ((List.range 28).map fun i => (i, ([] : List EnergySlot))) := by
  exact ⟨by decide, rfl⟩

/-- **C7 (amended).** An *unreachable* template source yields an empty
profile and the run aborts before any allocation (the guard raises); an
*empty* template source instead yields a profile with all 28 date keys
mapped to empty window lists, which the guard accepts, so the run does not
abort. -/
theorem C7_empty_profile_amended (todayWeekday : Nat) :
    (fetchWorkingHoursAndEnergyLevels none todayWeekday = [] ∧
        loadEnergyProfile none todayWeekday =
          .error "No working hours or energy levels found in Google Sheets.") ∧
      (fetchWorkingHoursAndEnergyLevels (some []) todayWeekday =
          (List.range 28).map (fun i => (i, ([] : List EnergySlot))) ∧
        loadEnergyProfile (some []) todayWeekday =
          .ok ((List.range 28).map fun i => (i, ([] : List EnergySlot)))) := by
  exact ⟨⟨rfl, rfl⟩, ⟨rfl, rfl⟩⟩

/-- Witness for C7's amended theorem with today falling on a Monday. -/
theorem C7_empty_profile_amended_witness :
    fetchWorkingHoursAndEnergyLevels none 0 = [] ∧
      loadEnergyProfile none 0 =
        .error "No working hours or energy levels found in Google Sheets." :=
  (C7_empty_profile_amended 0).1

end VirtualAssistant
